import Mathlib

/-!
Verification development for the delve runtime expression evaluator
(bytecode compiler + stack-depth verifier, `pkg/proc/evalop/evalcompile.go`)
and the runtime map iterators (`pkg/proc/mapiter.go`).

The Go code is shallowly embedded: pointer-mutating methods become pure
functions threading explicit state, fallible operations return `Option` /
`Except`, remote memory reads become environment functions
`Nat → Option Nat`.  Machine integers are modelled as `Nat`/`Int` (none of
the modelled arithmetic can overflow on the inputs considered: indices and
addresses are compared and added, never truncated).
-/

namespace MapIter

/-! ## Map iterators (`pkg/proc/mapiter.go`) -/

/-- Modelled from the spec: the classic-map sentinel constants
(`hashTophashEmptyZero` etc.) are declared in `variables.go`, which is not
among the sources; the spec (§3, §4.3) names `EMPTY_ZERO` as the zero
sentinel recognized by all producer versions. -/
def hashTophashEmptyZero : Nat := 0

/-- `swissTableCtrlEmpty` (mapiter.go line 312): `0b10000000`. -/
def swissTableCtrlEmpty : Nat := 0b10000000

/-- `swissMapGroupSlots` (mapiter.go line 311). -/
def swissMapGroupSlots : Nat := 8

/-- `swissTableGroupSlotsOffset` (mapiter.go line 313): `sizeof(uint64) = 8`. -/
def swissTableGroupSlotsOffset : Nat := 8

/-- The decoded fields of one classic-map bucket, as extracted by
`mapIteratorClassic.nextBucket` (mapiter.go lines 198-219) from the
bucket's `tophash`, `keys`, `values` and `overflow` fields.  The
environment (debug info + inferior memory) supplies one per bucket
address; `none` stands for a field read failure. -/
structure BucketData where
  /-- contents of the `tophash` array -/
  tophashes : List Nat
  /-- `keys.Len` -/
  keysLen : Nat
  /-- `values.Len` -/
  valuesLen : Nat
  /-- whether `values.fieldType.Size() > 0` -/
  valuesSizePositive : Bool
  /-- whether tophash/keys/values all have `reflect.Array` kind -/
  kindsAreArrays : Bool
  /-- `overflow.maybeDereference().Addr` (0 = nil) -/
  overflowAddr : Nat
  /-- whether the dereferenced overflow field has `reflect.Struct` kind -/
  overflowIsStruct : Bool
  deriving Repr, DecidableEq

/-- The inferior-process environment seen by the classic iterator: the
MemoryReader plus debug-info decoding, abstracted per the spec's external
interface contract (§6). -/
structure ClassicEnv where
  /-- decode the bucket at an address (`it.b.toField(...)` walk);
  `none` = unreadable -/
  loadBucket : Nat → Option BucketData
  /-- first tophash byte of the bucket at an address
  (`b.toField(tophash); sliceAccess(0); asUint()`); `none` = error or
  missing `tophash` field -/
  tophash0 : Nat → Option Nat

/-- State of `mapIteratorClassic` (mapiter.go lines 110-130).  `*Variable`
bucket references are reduced to their addresses. -/
structure ClassicIter where
  numbuckets : Nat
  oldmask : Nat
  bucketsAddr : Nat
  bucketSize : Nat
  oldbucketsAddr : Nat
  oldbucketSize : Nat
  /-- `it.b` (current bucket address); `none` = nil -/
  b : Option Nat
  bidx : Nat
  /-- contents of the current bucket's tophash array; `none` = nil -/
  tophashes : Option (List Nat)
  idx : Nat
  /-- `it.overflow` after dereference; `none` = nil -/
  overflow : Option Nat
  maxNumBuckets : Nat
  hashTophashEmptyOne : Nat
  hashMinTopHash : Nat
  /-- whether `it.v.Unreadable` has been set -/
  unreadable : Bool
  deriving Repr, DecidableEq

/-- The iteration cap test of `mapIteratorClassic.nextBucket`
(mapiter.go lines 142-144): `it.maxNumBuckets > 0 && it.bidx >= it.maxNumBuckets`. -/
def classicCapCheck (maxNumBuckets bidx : Nat) : Bool :=
  maxNumBuckets > 0 && bidx ≥ maxNumBuckets

/-- `mapIteratorClassic.mapEvacuated` (mapiter.go lines 288-306): a bucket
is evacuated iff its first tophash byte is strictly between the empty-one
sentinel and the minimum live tophash; a nil bucket, a read error or a
missing tophash field also count as evacuated. -/
def mapEvacuated (env : ClassicEnv) (it : ClassicIter) (addr : Nat) : Bool :=
  if addr = 0 then true
  else
    match env.tophash0 addr with
    | none => true
    | some t0 => t0 > it.hashTophashEmptyOne && t0 < it.hashMinTopHash

/-- The bucket-selection loop of `mapIteratorClassic.nextBucket`
(mapiter.go lines 146-179): starting from `bidx`, pick the next bucket to
iterate.  Returns `some (addr, i)` when bucket address `addr` was selected
while examining index `i`, `none` when the indices are exhausted
(`it.b == nil` after the loop).  During a grow the non-evacuated old
bucket replaces the new bucket only on the low half of the split; a new
bucket whose non-evacuated old bucket was already visited is skipped. -/
def bucketSelLoop (env : ClassicEnv) (it : ClassicIter) (bidx : Nat) :
    Option (Nat × Nat) :=
  if bidx < it.numbuckets then
    let bAddr := it.bucketsAddr + it.bucketSize * bidx
    if it.oldbucketsAddr = 0 then some (bAddr, bidx)
    else
      let oldbidx := bidx &&& it.oldmask
      let oldbAddr := it.oldbucketsAddr + it.oldbucketSize * oldbidx
      if mapEvacuated env it oldbAddr then some (bAddr, bidx)
      else if oldbidx = bidx then some (oldbAddr, bidx)
      else bucketSelLoop env it (bidx + 1)
  else none
termination_by it.numbuckets - bidx
decreasing_by omega

/-- The bucket-field load and sanity checks of
`mapIteratorClassic.nextBucket` (mapiter.go lines 187-249), entered with
`it.b = some addr`. -/
def loadBucketPhase (env : ClassicEnv) (it : ClassicIter) (addr : Nat) :
    ClassicIter × Bool :=
  if addr = 0 then (it, false)
  else
    match env.loadBucket addr with
    | none => ({ it with unreadable := true }, false)
    | some bd =>
      if !bd.kindsAreArrays then ({ it with unreadable := true }, false)
      else if bd.tophashes.length ≠ bd.keysLen then
        ({ it with unreadable := true }, false)
      else if bd.valuesSizePositive && bd.tophashes.length ≠ bd.valuesLen then
        ({ it with unreadable := true }, false)
      else if !bd.overflowIsStruct then ({ it with unreadable := true }, false)
      else
        ({ it with tophashes := some bd.tophashes,
                   overflow := some bd.overflowAddr }, true)

/-- `mapIteratorClassic.nextBucket` (mapiter.go lines 136-250). -/
def nextBucket (env : ClassicEnv) (it : ClassicIter) : ClassicIter × Bool :=
  match it.overflow with
  | some oAddr =>
    if oAddr > 0 then loadBucketPhase env { it with b := some oAddr } oAddr
    else nextBucketFresh env it
  | none => nextBucketFresh env it
where
  /-- the `else` branch (lines 140-184): select a fresh bucket index -/
  nextBucketFresh (env : ClassicEnv) (it : ClassicIter) : ClassicIter × Bool :=
    let it := { it with b := none }
    if classicCapCheck it.maxNumBuckets it.bidx then (it, false)
    else
      match bucketSelLoop env it it.bidx with
      | none => ({ it with bidx := it.numbuckets }, false)
      | some (addr, i) =>
        loadBucketPhase env { it with b := some addr, bidx := i + 1 } addr

/-- `mapIteratorClassic.next` (mapiter.go lines 252-272).  The Go loop can
fail to terminate on corrupted memory (a cyclic overflow chain), so the
model takes explicit fuel; `fuel = 0` reports exhaustion. -/
def classicNext (env : ClassicEnv) : ClassicIter → Nat → ClassicIter × Bool
  | it, 0 => (it, false)
  | it, fuel + 1 =>
    if it.b = none || decide (it.idx ≥ (it.tophashes.getD []).length) then
      match nextBucket env it with
      | (it, false) => (it, false)
      | (it, true) => readSlot env { it with idx := 0 } fuel
    else readSlot env it fuel
where
  /-- the slot read at lines 261-271: fetch `tophash[idx]`, advance, and
  yield unless the slot carries an empty sentinel -/
  readSlot (env : ClassicEnv) (it : ClassicIter) (fuel : Nat) :
      ClassicIter × Bool :=
    let h := (it.tophashes.getD []).getD it.idx 0
    let it := { it with idx := it.idx + 1 }
    if h ≠ hashTophashEmptyZero && h ≠ it.hashTophashEmptyOne then (it, true)
    else classicNext env it fuel

/-- The classic iterator returned by `Variable.mapIterator` for a map
whose header pointer is nil (mapiter.go lines 32 and 36-39): the iterator
literal of line 32 with `numbuckets` set to 0 by line 37; all other
fields keep their Go zero values. -/
def nilMapIterator (maxNumBuckets : Nat) : ClassicIter :=
  { numbuckets := 0, oldmask := 0, bucketsAddr := 0, bucketSize := 0,
    oldbucketsAddr := 0, oldbucketSize := 0, b := none, bidx := 0,
    tophashes := none, idx := 0, overflow := none,
    maxNumBuckets := maxNumBuckets, hashTophashEmptyOne := 0,
    hashMinTopHash := 0, unreadable := false }

/-! ### Swiss maps -/

/-- `swissTable` (mapiter.go lines 337-341). -/
structure SwissTable where
  index : Int
  groupsData : Nat
  groupsLengthMask : Nat
  deriving Repr, DecidableEq

/-- The inferior-process environment seen by the Swiss iterator. -/
structure SwissEnv where
  /-- `it.directory.Len` -/
  directoryLen : Nat
  /-- `loadCurrentTable` (mapiter.go lines 453-516): decode the table
  referenced by directory entry `d`; `none` = failure (which sets
  `v.Unreadable`) -/
  loadTable : Nat → Option SwissTable
  /-- 1-byte read at an address (`readUintRaw(mem, a, 1)`) -/
  readCtrl : Nat → Option Nat

/-- State of `mapIteratorSwiss` (mapiter.go lines 316-335).  `curKey` and
`curValue` are reduced to the addresses at which `slotKey`/`slotValue`
root the synthetic variables. -/
structure SwissIter where
  maxNumGroups : Nat
  slotSize : Nat
  elemOff : Nat
  groupSize : Nat
  dirIdx : Nat
  tab : Option SwissTable
  groupIdx : Nat
  group : Nat
  slotIdx : Nat
  groupCount : Nat
  curKey : Option Nat
  curValue : Option Nat
  unreadable : Bool
  deriving Repr, DecidableEq

/-- The group cap test of `mapIteratorSwiss.next` (mapiter.go line 404):
`it.maxNumGroups > 0 && it.groupIdx+it.groupCount >= it.maxNumGroups`. -/
def swissCapCheck (maxNumGroups groupIdx groupCount : Nat) : Bool :=
  maxNumGroups > 0 && groupIdx + groupCount ≥ maxNumGroups

/-- `mapIteratorSwiss.slotKey` address (mapiter.go lines 531-533). -/
def slotKeyAddr (it : SwissIter) (k : Nat) : Nat :=
  it.group + swissTableGroupSlotsOffset + k * it.slotSize

/-- `mapIteratorSwiss.slotValue` address (mapiter.go lines 535-538). -/
def slotValueAddr (it : SwissIter) (k : Nat) : Nat :=
  it.group + swissTableGroupSlotsOffset + k * it.slotSize + it.elemOff

/-- `mapIteratorSwiss.slotIsEmpty` (mapiter.go lines 540-548): read the
control byte at `group+k`; a read failure is treated as empty, otherwise
the slot is empty iff `n & swissTableCtrlEmpty == swissTableCtrlEmpty`
(the high bit is set). -/
def slotIsEmpty (env : SwissEnv) (group k : Nat) : Bool :=
  match env.readCtrl (group + k) with
  | none => true
  | some n => n &&& swissTableCtrlEmpty == swissTableCtrlEmpty

/-- The slot loop of `mapIteratorSwiss.next` (mapiter.go lines 414-428),
starting at slot `k`: skip empty slots; on the first non-empty slot store
key/value addresses, advance (rolling into the next group past slot 7)
and yield `true`.  Yields `false` when all remaining slots are empty
(after which line 430 resets `slotIdx` to 0); a control-byte read failure
sets `Unreadable` (inside `slotIsEmpty`) and the slot is skipped. -/
def swissSlotsGo (env : SwissEnv) (it : SwissIter) (k : Nat) :
    SwissIter × Bool :=
  if _h : k < swissMapGroupSlots then
    if slotIsEmpty env it.group k then
      swissSlotsGo env
        { it with unreadable := it.unreadable || (env.readCtrl (it.group + k)).isNone } (k + 1)
    else
      let it := { it with curKey := some (slotKeyAddr it k),
                          curValue := some (slotValueAddr it k),
                          slotIdx := k + 1 }
      (if k + 1 ≥ swissMapGroupSlots then
         { it with groupIdx := it.groupIdx + 1, group := 0, slotIdx := 0 }
       else it, true)
  else (it, false)
termination_by swissMapGroupSlots - k
decreasing_by simp only [swissMapGroupSlots] at *; omega

/-- Result of the group loop of `mapIteratorSwiss.next`. -/
inductive GroupsResult where
  /-- `return false` (cap reached or group address 0) -/
  | stop (it : SwissIter)
  /-- `return true` with a yielded slot -/
  | found (it : SwissIter)
  /-- `groupIdx` ran past `groupsLengthMask`; move to the next table -/
  | exhausted (it : SwissIter)
  deriving Repr, DecidableEq

/-- The group loop of `mapIteratorSwiss.next` (mapiter.go lines 403-432):
for `groupIdx` up to `groupsLengthMask`, enforce the group cap, load the
group address, and scan its slots.  The loop counter `gi` mirrors
`it.groupIdx` (made an explicit argument; callers pass `it.groupIdx` and
the recursive call keeps the two in sync). -/
def swissGroupsGo (env : SwissEnv) (tab : SwissTable) (gi : Nat)
    (it : SwissIter) : GroupsResult :=
  if _h : gi ≤ tab.groupsLengthMask then
    if swissCapCheck it.maxNumGroups gi it.groupCount then .stop it
    else
      let it := if it.group = 0 then
          { it with group := tab.groupsData + gi * it.groupSize }
        else it
      if it.group = 0 then .stop it
      else
        match swissSlotsGo env it it.slotIdx with
        | (it, true) => .found it
        | (it, false) =>
          swissGroupsGo env tab (gi + 1)
            { it with slotIdx := 0, groupIdx := gi + 1, group := 0 }
  else .exhausted it
termination_by tab.groupsLengthMask + 1 - gi
decreasing_by omega

/-- `mapIteratorSwiss.next` (mapiter.go lines 390-440): walk the
directory; duplicate tables (whose `index` differs from their directory
position) are skipped; a table-load failure sets `Unreadable` and stops.
The loop counter `d` mirrors `it.dirIdx`. -/
def swissNextGo (env : SwissEnv) (d : Nat) (it : SwissIter) :
    SwissIter × Bool :=
  if _h : d < env.directoryLen then
    match it.tab with
    | none =>
      match env.loadTable d with
      | none => ({ it with unreadable := true }, false)
      | some tab =>
        if tab.index ≠ (d : Int) then
          swissNextGo env (d + 1) { it with dirIdx := d + 1, tab := none }
        else
          match swissGroupsGo env tab it.groupIdx { it with tab := some tab } with
          | .stop it => (it, false)
          | .found it => (it, true)
          | .exhausted it =>
            swissNextGo env (d + 1)
              { it with groupCount := it.groupCount + it.groupIdx,
                        groupIdx := 0, group := 0, dirIdx := d + 1,
                        tab := none }
    | some tab =>
      match swissGroupsGo env tab it.groupIdx it with
      | .stop it => (it, false)
      | .found it => (it, true)
      | .exhausted it =>
        swissNextGo env (d + 1)
          { it with groupCount := it.groupCount + it.groupIdx,
                    groupIdx := 0, group := 0, dirIdx := d + 1, tab := none }
  else (it, false)
termination_by env.directoryLen - d
decreasing_by all_goals omega

/-- `mapIteratorSwiss.next` entry point. -/
def swissNext (env : SwissEnv) (it : SwissIter) : SwissIter × Bool :=
  swissNextGo env it.dirIdx it

end MapIter

namespace Evalop

/-! ## The expression compiler (`pkg/proc/evalop/evalcompile.go`)

The Go AST (`go/ast`) is embedded as `Expr`, `go/constant` values as
`Const`, debug-info types (`godwarf.Type`, an external package) as
`GoType`.  `Compile`'s string parsing is performed by the external Go
parser and is not modelled: the entry points `CompileAST` and
`CompileSet` take already-parsed expressions. -/

/-- `go/token` literal kinds distinguished by the compiler. -/
inductive LitKind where
  | int | float | imag | char | string
  deriving Repr, DecidableEq

/-- Binary operator tokens distinguished by the compiler
(`token.LAND`/`LOR` get short-circuit lowering, `token.INC`/`DEC`/`ARROW`
are rejected, `token.ADD` participates in `isStringLiteral`). -/
inductive BinOp where
  | land | lor | add | inc | dec | arrow
  | sub | mul | quo | eql | neq | lss | gtr
  deriving Repr, DecidableEq

/-- Unary operator tokens (`token.AND` becomes `AddrOf`). -/
inductive UnOp where
  | and | sub | add | not | xor
  deriving Repr, DecidableEq

/-- Jump conditions (`evalop.JumpCond`). -/
inductive JumpCond where
  | jumpIfFalse | jumpIfTrue | jumpAlways | jumpIfPinningDone
  | jumpIfAllocStringChecksFail
  deriving Repr, DecidableEq

/-- `go/constant.Value`, as far as the compiler constructs them. -/
inductive Const where
  /-- `constant.MakeFromLiteral(value, kind, 0)` -/
  | fromLit (kind : LitKind) (value : String)
  /-- `constant.MakeBool` -/
  | boolC (b : Bool)
  /-- `constant.MakeInt64` -/
  | intC (n : Int)
  deriving Repr, DecidableEq

/-- `godwarf.Type` (external package `pkg/dwarf/godwarf`), reduced to the
structure the compiler inspects: typedef/qualifier layers, struct fields
by name, pointer/slice shapes, and basic types (for the fake `[]byte` /
`[]rune` fallbacks). -/
inductive GoType where
  | structT (fields : List String)
  | sliceT (elem : GoType)
  | mapT
  | arrayT
  | ptrT (t : GoType)
  | typedefT (t : GoType)
  | qualT (t : GoType)
  | basicT (name : String) (size : Nat)
  deriving Repr, DecidableEq

/-- `ResolveTypedef` (evalcompile.go lines 820-831): strip typedef and
qualifier layers to a fixpoint. -/
def resolveTypedef : GoType → GoType
  | .typedefT t => resolveTypedef t
  | .qualT t => resolveTypedef t
  | t => t

/-- `godwarf.FakeSliceType(godwarf.FakeBasicType("uint", 8))` (external). -/
def fakeSliceUint8 : GoType := .sliceT (.basicT "uint" 8)

/-- `godwarf.FakeSliceType(godwarf.FakeBasicType("int", 32))` (external). -/
def fakeSliceInt32 : GoType := .sliceT (.basicT "int" 32)

/-- The subset of `go/ast.Expr` traversed by the compiler.  Composite
literal elements are `(some key, value)` for `ast.KeyValueExpr` (whose
key the code asserts to be an identifier) and `(none, value)` otherwise.
Compound type expressions (`ast.ArrayType` etc.), which the compiler only
passes to the external type resolver or uses as cast/dispatch tags, keep
just the shape needed for that. -/
inductive Expr where
  | ident (name : String)
  | basicLit (kind : LitKind) (value : String)
  | paren (x : Expr)
  | selector (x : Expr) (sel : String)
  | typeAssertE (x : Expr) (typ : Expr)
  | indexE (x i : Expr)
  | indexListE (x : Expr) (indices : List Expr)
  | sliceE (x : Expr) (low high : Option Expr) (slice3 : Bool)
  | star (x : Expr)
  | unaryE (op : UnOp) (x : Expr)
  | binaryE (op : BinOp) (x y : Expr)
  | call (fn : Expr) (args : List Expr)
  | compositeLit (typ : Expr) (elts : List (Option String × Expr))
  | arrayTypeE (len : Option Expr) (elt : Expr)
  | structTypeE
  | funcTypeE
  | interfaceTypeE
  | mapTypeE
  | chanTypeE
  deriving Repr

/-- The stack-machine operation set (`evalop.Op` variants), carrying the
operands the compiler stores in them (executor-only AST references are
dropped). -/
inductive Op where
  | pushCurg
  | pushFrameoff
  | pushThreadID
  | pushLocal (name : String) (frame : Int)
  | pushPackageVar (pkg name : String)
  | pushConst (v : Const)
  | pushNil
  | pushRegister (regnum : Nat) (regname : String)
  | pushLen
  | pushRuntimeType (t : GoType)
  | pushDebugPinner
  | pushPinAddress
  | select (name : String)
  | typeAssert (t : Option GoType)
  | typeCast (t : GoType)
  | index
  | reslice (hasHigh : Bool)
  | pointerDeref
  | unary (op : UnOp)
  | addrOf
  | binary (op : BinOp)
  | boolToConst
  | jump (cond : JumpCond) (popFlag : Bool) (target : Nat)
  | pop
  | setValue
  | setDebugPinner
  | convertAllocToString
  | dup
  | builtinCall (name : String) (argc : Nat)
  | roll (n : Nat)
  | callInjectionStart (hasFunc : Bool) (id : Nat)
  | callInjectionStartSpecial (id : Nat) (fnName : String)
  | callInjectionSetTarget (id : Nat)
  | callInjectionCopyArg (id : Nat) (argNum : Nat)
  | callInjectionComplete (id : Nat) (doPinning : Bool)
  | callInjectionComplete2 (id : Nat)
  deriving Repr, DecidableEq

/-- Modelled from the spec: the per-variant `depthCheck()` arities of
`ops.go`, which is not among the sources.  Section 3 fixes the arity
contract `(pops, pushes)`, `Roll{n} = (n,n)` and the argument copier
`(1,0)`; section 8's depth listings fix the push/const/binary arities;
the remaining values are the unique static assignment consistent with
every emission site of `evalcompile.go` passing the depth check (as the
code's comments assert they do): conditional jumps on a value read the
top of the stack, popping it only when `Pop` is set;
`CallInjectionStart`/`StartSpecial` push one value,
`CallInjectionSetTarget` consumes the function value, `Complete` pushes
the call result. -/
def Op.arity : Op → Nat × Nat
  | .pushCurg | .pushFrameoff | .pushThreadID | .pushLocal _ _
  | .pushPackageVar _ _ | .pushConst _ | .pushNil | .pushRegister _ _
  | .pushRuntimeType _ | .pushDebugPinner | .pushPinAddress => (0, 1)
  | .pushLen => (1, 2)
  | .select _ | .typeAssert _ | .typeCast _ | .pointerDeref | .unary _
  | .addrOf | .boolToConst => (1, 1)
  | .index => (2, 1)
  | .reslice hasHigh => if hasHigh then (3, 1) else (2, 1)
  | .binary _ => (2, 1)
  | .jump cond popFlag _ =>
    match cond with
    | .jumpIfFalse | .jumpIfTrue | .jumpIfAllocStringChecksFail =>
      if popFlag then (1, 0) else (1, 1)
    | .jumpAlways | .jumpIfPinningDone => (0, 0)
  | .pop => (1, 0)
  | .setValue => (2, 0)
  | .setDebugPinner => (1, 0)
  | .convertAllocToString => (2, 1)
  | .dup => (1, 2)
  | .builtinCall _ argc => (argc, 1)
  | .roll n => (n, n)
  | .callInjectionStart _ _ => (0, 1)
  | .callInjectionStartSpecial _ _ => (0, 1)
  | .callInjectionSetTarget _ => (1, 0)
  | .callInjectionCopyArg _ _ => (1, 0)
  | .callInjectionComplete _ _ => (0, 1)
  | .callInjectionComplete2 _ => (1, 1)

/-- Compiler errors.  Only the identities of `ErrFuncCallNotAllowed` and
`reader.ErrTypeNotFound` are compared by the code; the remaining
constructors stand for the distinct `fmt.Errorf` messages. -/
inductive CErr where
  /-- modelling artifact: recursion fuel ran out (no Go counterpart) -/
  | outOfFuel
  | funcCallNotAllowed
  | funcCallNotAllowedLitAlloc
  /-- `reader.ErrTypeNotFound` from the external type resolver -/
  | typeNotFound
  /-- any other type-resolver error -/
  | typeErr (msg : String)
  | notImplemented
  | operatorNotSupported
  | threeIndexSlice
  | couldNotFindSymbol (name : String)
  | couldNotEvalFunctionOrType (name : String)
  /-- wrapper of the error at argument `argNum` of a call -/
  | argEval (argNum : Nat)
  | frameArg
  | unquoteErr
  | depthCheckFailed (msg : String)
  deriving Repr, DecidableEq

/-- `evalLookup` (evalcompile.go lines 35-41): the external Scope and
TypeResolver interfaces. -/
structure EvalLookup where
  findTypeExpr : Expr → Except CErr GoType
  hasLocal : String → Bool
  hasGlobal : String → String → Bool
  hasBuiltin : String → Bool
  lookupRegisterName : String → Option Nat

/-- `evalop.Flags` (evalcompile.go lines 43-48), a production bit set
modelled as two booleans. -/
structure Flags where
  canSet : Bool
  hasDebugPinner : Bool
  deriving Repr, DecidableEq

/-- `compileCtx` (evalcompile.go lines 26-33) minus the embedded lookup,
which is passed separately. -/
structure CompileCtx where
  ops : List Op
  allowCalls : Bool
  curCall : Nat
  flags : Flags
  firstCall : Bool
  deriving Repr, DecidableEq

/-- `DebugPinnerFunctionName` (evalcompile.go line 23). -/
def DebugPinnerFunctionName : String := "runtime.debugPinner"

/-- `compileCtx.pushOp` (evalcompile.go lines 195-197). -/
def pushOp (ctx : CompileCtx) (op : Op) : CompileCtx :=
  { ctx with ops := ctx.ops ++ [op] }

/-- Back-patching of a jump's mutable `Target` field: replace the target
of the jump at index `j` (always the jump the caller pushed there). -/
def patchJump (ctx : CompileCtx) (j target : Nat) : CompileCtx :=
  { ctx with ops :=
      match ctx.ops.get? j with
      | some (.jump cond popFlag _) => ctx.ops.set j (.jump cond popFlag target)
      | _ => ctx.ops }

/-- `removeParen` (evalcompile.go lines 803-812). -/
def removeParen : Expr → Expr
  | .paren x => removeParen x
  | e => e

/-- The de-parenthesize/de-star loop of `compileTypeCastOrFuncCall`
(evalcompile.go lines 460-468). -/
def stripParenStars : Expr → Expr
  | .paren x => stripParenStars x
  | .star x => stripParenStars x
  | e => e

/-- `isStringLiteral` (evalcompile.go lines 789-801). -/
def isStringLiteral : Expr → Bool
  | .basicLit kind _ => kind == .string
  | .binaryE op x y =>
    if op == .add then isStringLiteral x && isStringLiteral y else false
  | .paren x => isStringLiteral x
  | _ => false

/-- `ExprToString` (the external `go/printer`), modelled far enough to
decide the `"[]byte"`-family comparisons of `compileTypeCast`: slice type
expressions and plain/selected identifiers print as in Go, anything else
prints as an unmatched placeholder. -/
def exprToString : Expr → String
  | .ident n => n
  | .selector (.ident p) s => p ++ "." ++ s
  | .arrayTypeE none (.ident n) => "[]" ++ n
  | _ => "<expr>"

/-- `strconv.ParseInt(value, 10, 8)` (external), as used for
`runtime.frame(N)`: an optional sign followed by decimal digits,
range-checked to int8. -/
def parseIntLit8 (s : String) : Option Int :=
  let core (ds : List Char) : Option Nat :=
    if ds = [] ∨ ¬ ds.all Char.isDigit then none
    else some (ds.foldl (fun a c => a * 10 + (c.toNat - 48)) 0)
  let (neg, ds) :=
    match s.data with
    | c :: rest => if c = '-' then (true, rest)
                   else if c = '+' then (false, rest)
                   else (false, s.data)
    | [] => (false, [])
  match core ds with
  | none => none
  | some n =>
    let v : Int := if neg then -(n : Int) else (n : Int)
    if -128 ≤ v ∧ v ≤ 127 then some v else none

/-- `strconv.Unquote` (external), modelled for plain double-quoted
strings without escapes. -/
def unquoteLit (s : String) : Option String :=
  match s.data with
  | '"' :: rest =>
    match rest.reverse with
    | '"' :: mid => some (String.mk mid.reverse)
    | _ => none
  | _ => none

/-! ### Special-call emission helpers (evalcompile.go lines 127-197) -/

/-- Argument-operand emission of `compileSpecialCall`'s loop (lines
158-163): a `none` entry is the "value already on the stack" slot. -/
def pushSpecialArgs (id : Nat) (args : List (Option Op)) (i : Nat)
    (ctx : CompileCtx) : CompileCtx :=
  match args with
  | [] => ctx
  | arg :: rest =>
    let ctx := match arg with
      | some op => pushOp ctx op
      | none => ctx
    let ctx := pushOp ctx (.callInjectionCopyArg id i)
    pushSpecialArgs id rest (i + 1) ctx

/-- The start/target/args/complete core of `compileCtx.compileSpecialCall`
(evalcompile.go lines 150-167), with the effective `doPinning` flag
(`doPinning && HasDebugPinner`) already computed. -/
def compileSpecialCallCore (fnname : String) (args : List (Option Op))
    (effPinning : Bool) (ctx : CompileCtx) : CompileCtx :=
  let id := ctx.curCall
  let ctx := { ctx with curCall := id + 1 }
  let ctx := pushOp ctx (.callInjectionStartSpecial id fnname)
  let ctx := pushOp ctx (.callInjectionSetTarget id)
  let ctx := pushSpecialArgs id args 0 ctx
  pushOp ctx (.callInjectionComplete id effPinning)

/-- `compileCtx.compileGetDebugPinner` (evalcompile.go lines 174-180):
once per program, when `HasDebugPinner` is set, emit the pinner
acquisition (a pinning-free special call to `runtime.debugPinner`
followed by `SetDebugPinner`). -/
def compileGetDebugPinner (ctx : CompileCtx) : CompileCtx :=
  if ctx.firstCall && ctx.flags.hasDebugPinner then
    let ctx := compileSpecialCallCore DebugPinnerFunctionName [] false ctx
    let ctx := pushOp ctx .setDebugPinner
    { ctx with firstCall := false }
  else ctx

/-- `compileCtx.compilePinningLoop` (evalcompile.go lines 760-776). -/
def compilePinningLoop (id : Nat) (ctx : CompileCtx) : CompileCtx :=
  let loopStart := ctx.ops.length
  let ctx := pushOp ctx (.jump .jumpIfPinningDone false 0)
  let ctx := pushOp ctx .pushPinAddress
  let ctx := compileSpecialCallCore "runtime.(*Pinner).Pin"
    [some .pushDebugPinner, none] false ctx
  let ctx := pushOp ctx .pop
  let ctx := pushOp ctx (.jump .jumpAlways false loopStart)
  let ctx := patchJump ctx loopStart ctx.ops.length
  pushOp ctx (.callInjectionComplete2 id)

/-- `compileCtx.compileSpecialCall` (evalcompile.go lines 145-172). -/
def compileSpecialCall (fnname : String) (args : List (Option Op))
    (doPinning : Bool) (ctx : CompileCtx) : CompileCtx :=
  let ctx := if doPinning then compileGetDebugPinner ctx else ctx
  let id := ctx.curCall
  let effPinning := doPinning && ctx.flags.hasDebugPinner
  let ctx := compileSpecialCallCore fnname args effPinning ctx
  if effPinning then compilePinningLoop id ctx else ctx

/-- `compileCtx.compileAllocLiteralString` (evalcompile.go lines
127-143): guard jump, special call to `runtime.mallocgc(len, nil,
false)`, `ConvertAllocToString`, back-patch the guard to the instruction
after the conversion. -/
def compileAllocLiteralString (ctx : CompileCtx) : CompileCtx :=
  let j := ctx.ops.length
  let ctx := pushOp ctx (.jump .jumpIfAllocStringChecksFail false 0)
  let ctx := compileSpecialCall "runtime.mallocgc"
    [some .pushLen, some .pushNil, some (.pushConst (.boolC false))] true ctx
  let ctx := pushOp ctx .convertAllocToString
  patchJump ctx j ctx.ops.length

/-- `compileCtx.compileDebugUnpin` (evalcompile.go lines 182-193). -/
def compileDebugUnpin (ctx : CompileCtx) : CompileCtx :=
  if !ctx.firstCall && ctx.flags.hasDebugPinner then
    let ctx := compileSpecialCall "runtime.(*Pinner).Unpin"
      [some .pushDebugPinner] false ctx
    let ctx := pushOp ctx .pop
    let ctx := pushOp ctx .pushNil
    pushOp ctx .setDebugPinner
  else ctx

/-! ### The depth verifier (evalcompile.go lines 199-252) -/

/-- `checkAndSet` (evalcompile.go lines 215-222): set `depth[j]` to `d`
if unset, then require equality.  A target outside the table (a Go
index panic) is reported as an error. -/
def checkAndSet (depth : List Int) (j : Nat) (d : Int) :
    Except String (List Int) :=
  if j < depth.length then
    let depth := if depth.getD j (-1) < 0 then depth.set j d else depth
    if d ≠ depth.getD j (-1) then .error "depth check error: jump target mismatch"
    else .ok depth
  else .error "depth check error: target out of range"

/-- The instruction loop of `compileCtx.depthCheck` (evalcompile.go lines
226-246), processing the instructions of `rest` starting at index `i`.
`seen` is `debugPinnerSeen`.  Go accumulates at most one error per
iteration and returns it at the iteration's end; the model short-circuits
at the first failed check, which accepts exactly the same programs. -/
def depthCheckLoop (i : Nat) (rest : List Op) (depth : List Int)
    (seen : Bool) : Except String (List Int) :=
  match rest with
  | [] => .ok depth
  | op :: rest =>
    let npop := op.arity.1
    let npush := op.arity.2
    if depth.getD i (-1) < (npop : Int) then
      .error "depth check error: stack underflow"
    else
      let d := depth.getD i (-1) - npop + npush
      match checkAndSet depth (i + 1) d with
      | .error e => .error e
      | .ok depth =>
        match op with
        | .jump _ _ target =>
          match checkAndSet depth target d with
          | .error e => .error e
          | .ok depth => depthCheckLoop (i + 1) rest depth seen
        | .callInjectionStartSpecial _ _ => depthCheckLoop (i + 1) rest depth true
        | .callInjectionComplete _ doPinning =>
          if doPinning && !seen then
            .error "pinning call injection seen before call to runtime.debugPinner"
          else depthCheckLoop (i + 1) rest depth seen
        | _ => depthCheckLoop (i + 1) rest depth seen

/-- `compileCtx.depthCheck` (evalcompile.go lines 199-252).  On success
the model returns the computed depth table (kept internal by the Go
code) for specification purposes. -/
def depthCheck (ops : List Op) (endDepth : Int) : Except String (List Int) :=
  let depth := (List.replicate (ops.length + 1) (-1 : Int)).set 0 0
  match depthCheckLoop 0 ops depth false with
  | .error e => .error e
  | .ok depth =>
    if depth.getD ops.length (-1) ≠ endDepth then
      .error "depth check failed: depth at the end is wrong"
    else .ok depth

end Evalop

namespace Evalop

/-! ### The compiler proper (evalcompile.go lines 254-776)

The Go functions recurse structurally on the AST (with list recursion
nested inside); the embedding adds an explicit fuel argument, decremented
once per call edge, and a distinguished `outOfFuel` error.  Each function
returns the (possibly partially extended) context together with an
optional error, exactly like the Go pointer-receiver methods.  Any fuel
large enough for the expression gives the Go behaviour. -/

/-- `compileCtx.compileIdent` (evalcompile.go lines 555-576). -/
def compileIdent (lk : EvalLookup) (ctx : CompileCtx) (name : String) :
    CompileCtx × Option CErr :=
  if lk.hasLocal name then (pushOp ctx (.pushLocal name 0), none)
  else if lk.hasGlobal "" name then (pushOp ctx (.pushPackageVar "" name), none)
  else if name = "true" || name = "false" then
    (pushOp ctx (.pushConst (.boolC (name == "true"))), none)
  else if name = "nil" then (pushOp ctx .pushNil, none)
  else
    match lk.lookupRegisterName name with
    | some regnum => (pushOp ctx (.pushRegister regnum name), none)
    | none => (ctx, some (.couldNotFindSymbol name))

/-- The reverse-order `CallInjectionCopyArg` emission of
`compileFunctionCallNew` (evalcompile.go lines 748-751). -/
def pushCopyArgsRev (id n : Nat) (ctx : CompileCtx) : CompileCtx :=
  ((List.range n).reverse).foldl
    (fun c i => pushOp c (.callInjectionCopyArg id i)) ctx

set_option maxHeartbeats 1000000 in
mutual

/-- `compileCtx.compileAST` (evalcompile.go lines 254-440). -/
def compileAST (lk : EvalLookup) (fuel : Nat) (ctx : CompileCtx)
    (t : Expr) : CompileCtx × Option CErr :=
  match fuel with
  | 0 => (ctx, some .outOfFuel)
  | fuel + 1 =>
    match t with
    | .call fn args => compileTypeCastOrFuncCall lk fuel ctx fn args
    | .ident name => compileIdent lk ctx name
    | .paren x => compileAST lk fuel ctx x
    | .selector x sel =>
      match x with
      | .ident xn =>
        if xn = "runtime" && sel = "curg" then (pushOp ctx .pushCurg, none)
        else if xn = "runtime" && sel = "frameoff" then
          (pushOp ctx .pushFrameoff, none)
        else if xn = "runtime" && sel = "threadid" then
          (pushOp ctx .pushThreadID, none)
        else if lk.hasLocal xn then
          (pushOp (pushOp ctx (.pushLocal xn 0)) (.select sel), none)
        else if lk.hasGlobal xn sel then
          (pushOp ctx (.pushPackageVar xn sel), none)
        else compileUnary lk fuel ctx x (.select sel)
      | .call cfn cargs =>
        match cfn with
        | .selector (.ident f) fsel =>
          if f = "runtime" && fsel = "frame" then
            match cargs with
            | .basicLit _ v :: _ =>
              match parseIntLit8 v with
              | some fr => (pushOp ctx (.pushLocal sel fr), none)
              | none => (ctx, some .frameArg)
            | _ => (ctx, some .frameArg)
          else compileUnary lk fuel ctx x (.select sel)
        | _ => compileUnary lk fuel ctx x (.select sel)
      | .basicLit _ v =>
        match unquoteLit v with
        | none => (ctx, some .unquoteErr)
        | some s =>
          if lk.hasGlobal s sel then (pushOp ctx (.pushPackageVar s sel), none)
          else compileUnary lk fuel ctx x (.select sel)
      | _ => compileUnary lk fuel ctx x (.select sel)
    | .typeAssertE x ty => compileTypeAssert lk fuel ctx x ty
    | .indexE x i =>
      match compileBinary lk fuel ctx x i none .index with
      | (ctx, _, err) => (ctx, err)
    | .sliceE x lo hi slice3 =>
      if slice3 then (ctx, some .threeIndexSlice)
      else compileReslice lk fuel ctx x lo hi
    | .star x => compileUnary lk fuel ctx x .pointerDeref
    | .unaryE op x =>
      match op with
      | .and => compileUnary lk fuel ctx x .addrOf
      | _ => compileUnary lk fuel ctx x (.unary op)
    | .binaryE op x y =>
      match op with
      | .inc | .dec | .arrow => (ctx, some .operatorNotSupported)
      | _ =>
        let sop : Option JumpCond :=
          match op with
          | .land => some .jumpIfFalse
          | .lor => some .jumpIfTrue
          | _ => none
        match compileBinary lk fuel ctx x y sop (.binary op) with
        | (ctx, _, some e) => (ctx, some e)
        | (ctx, sidx, none) =>
          match sidx with
          | some j =>
            let ctx := patchJump ctx j ctx.ops.length
            (pushOp ctx .boolToConst, none)
          | none => (ctx, none)
    | .basicLit kind v => (pushOp ctx (.pushConst (.fromLit kind v)), none)
    | .compositeLit typ elts =>
      if ctx.flags.hasDebugPinner = false then (ctx, some .notImplemented)
      else
        match lk.findTypeExpr typ with
        | .error e => (ctx, some e)
        | .ok dtyp =>
          match resolveTypedef dtyp with
          | .structT fields =>
            if !ctx.allowCalls then (ctx, some .funcCallNotAllowedLitAlloc)
            else
              let ctx := compileSpecialCall "runtime.mallocgc"
                [some (.pushConst (.intC 1)), some (.pushRuntimeType dtyp),
                 some (.pushConst (.boolC true))] true ctx
              let ctx := pushOp ctx (.typeCast (.ptrT dtyp))
              let ctx := pushOp ctx .pointerDeref
              compileCompositeElts lk fuel ctx fields 0 elts
          | .sliceT _ => (ctx, some .notImplemented)
          | .mapT => (ctx, some .notImplemented)
          | .arrayT => (ctx, some .notImplemented)
          | _ => (ctx, some .notImplemented)
    | _ => (ctx, some .notImplemented)
termination_by structural fuel

/-- `compileCtx.compileTypeCastOrFuncCall` (evalcompile.go lines
442-511), over the call's destructured `Fun` and `Args`. -/
def compileTypeCastOrFuncCall (lk : EvalLookup) (fuel : Nat)
    (ctx : CompileCtx) (fn : Expr) (args : List Expr) :
    CompileCtx × Option CErr :=
  match fuel with
  | 0 => (ctx, some .outOfFuel)
  | fuel + 1 =>
    match args with
    | [arg] =>
      match stripParenStars fn with
      | .basicLit _ _ => compileTypeCast lk fuel ctx fn arg none
      | .arrayTypeE _ _ => compileTypeCast lk fuel ctx fn arg none
      | .structTypeE => compileTypeCast lk fuel ctx fn arg none
      | .funcTypeE => compileTypeCast lk fuel ctx fn arg none
      | .interfaceTypeE => compileTypeCast lk fuel ctx fn arg none
      | .mapTypeE => compileTypeCast lk fuel ctx fn arg none
      | .chanTypeE => compileTypeCast lk fuel ctx fn arg none
      | .selector sx _ =>
        match sx with
        | .ident _ =>
          match lk.findTypeExpr (stripParenStars fn) with
          | .ok _ => compileTypeCast lk fuel ctx fn arg none
          | .error _ =>
            let ctx2 : CompileCtx :=
              { ops := [], allowCalls := false, curCall := 0,
                flags := ⟨false, false⟩, firstCall := false }
            match compileAST lk fuel ctx2 fn with
            | (_, none) => compileFunctionCall lk fuel ctx fn [arg]
            | (_, some err0) => compileTypeCast lk fuel ctx fn arg (some err0)
        | _ => compileFunctionCall lk fuel ctx fn [arg]
      | .ident n =>
        if lk.hasBuiltin n then compileFunctionCall lk fuel ctx fn [arg]
        else if lk.hasGlobal "" n || lk.hasLocal n then
          compileFunctionCall lk fuel ctx fn [arg]
        else compileTypeCast lk fuel ctx fn arg (some (.couldNotFindSymbol n))
      | .indexE ix _ =>
        match ix with
        | .ident _ | .selector _ _ =>
          match compileTypeCast lk fuel ctx fn arg none with
          | (ctx, none) => (ctx, none)
          | (ctx, some e) =>
            if e ≠ .typeNotFound then (ctx, some e)
            else compileFunctionCall lk fuel ctx fn [arg]
        | _ => compileFunctionCall lk fuel ctx fn [arg]
      | .indexListE _ _ => compileTypeCast lk fuel ctx fn arg none
      | _ => compileFunctionCall lk fuel ctx fn [arg]
    | _ => compileFunctionCall lk fuel ctx fn args
termination_by structural fuel

/-- `compileCtx.compileTypeCast` (evalcompile.go lines 513-542). -/
def compileTypeCast (lk : EvalLookup) (fuel : Nat) (ctx : CompileCtx)
    (fn arg : Expr) (ambiguousErr : Option CErr) : CompileCtx × Option CErr :=
  match fuel with
  | 0 => (ctx, some .outOfFuel)
  | fuel + 1 =>
    match compileAST lk fuel ctx arg with
    | (ctx, some e) => (ctx, some e)
    | (ctx, none) =>
      let fnnode := removeParen fn
      let targetTypeStr := exprToString (removeParen fn)
      match lk.findTypeExpr fnnode with
      | .ok styp => (pushOp ctx (.typeCast styp), none)
      | .error err =>
        if targetTypeStr = "[]byte" ∨ targetTypeStr = "[]uint8" then
          (pushOp ctx (.typeCast fakeSliceUint8), none)
        else if targetTypeStr = "[]int32" ∨ targetTypeStr = "[]rune" then
          (pushOp ctx (.typeCast fakeSliceInt32), none)
        else if ambiguousErr.isSome ∧ err = .typeNotFound then
          (ctx, some (.couldNotEvalFunctionOrType (exprToString fn)))
        else (ctx, some err)
termination_by structural fuel

/-- `compileCtx.compileFunctionCall` (evalcompile.go lines 651-669). -/
def compileFunctionCall (lk : EvalLookup) (fuel : Nat) (ctx : CompileCtx)
    (fn : Expr) (args : List Expr) : CompileCtx × Option CErr :=
  match fuel with
  | 0 => (ctx, some .outOfFuel)
  | fuel + 1 =>
    match fn with
    | .ident n =>
      if lk.hasBuiltin n then compileBuiltinCall lk fuel ctx n args
      else if !ctx.allowCalls then (ctx, some .funcCallNotAllowed)
      else
        let id := ctx.curCall
        let ctx := { ctx with curCall := id + 1 }
        if ctx.flags.hasDebugPinner then
          compileFunctionCallNew lk fuel ctx fn args id
        else compileFunctionCallOld lk fuel ctx fn args id
    | _ =>
      if !ctx.allowCalls then (ctx, some .funcCallNotAllowed)
      else
        let id := ctx.curCall
        let ctx := { ctx with curCall := id + 1 }
        if ctx.flags.hasDebugPinner then
          compileFunctionCallNew lk fuel ctx fn args id
        else compileFunctionCallOld lk fuel ctx fn args id
termination_by structural fuel

/-- `compileCtx.compileBuiltinCall` (evalcompile.go lines 544-553). -/
def compileBuiltinCall (lk : EvalLookup) (fuel : Nat) (ctx : CompileCtx)
    (builtin : String) (args : List Expr) : CompileCtx × Option CErr :=
  match fuel with
  | 0 => (ctx, some .outOfFuel)
  | fuel + 1 =>
    match compileASTList lk fuel ctx args with
    | (ctx, some e) => (ctx, some e)
    | (ctx, none) => (pushOp ctx (.builtinCall builtin args.length), none)
termination_by structural fuel

/-- The argument loop of `compileBuiltinCall`. -/
def compileASTList (lk : EvalLookup) (fuel : Nat) (ctx : CompileCtx)
    (args : List Expr) : CompileCtx × Option CErr :=
  match fuel with
  | 0 => (ctx, some .outOfFuel)
  | fuel + 1 =>
    match args with
    | [] => (ctx, none)
    | arg :: rest =>
      match compileAST lk fuel ctx arg with
      | (ctx, some e) => (ctx, some e)
      | (ctx, none) => compileASTList lk fuel ctx rest
termination_by structural fuel

/-- `compileCtx.compileFunctionCallOld` (evalcompile.go lines 673-686):
the speculative function-expression compilation with `allowCalls`
disabled, restoring the emitted ops on failure. -/
def compileFunctionCallOld (lk : EvalLookup) (fuel : Nat)
    (ctx : CompileCtx) (fn : Expr) (args : List Expr) (id : Nat) :
    CompileCtx × Option CErr :=
  match fuel with
  | 0 => (ctx, some .outOfFuel)
  | fuel + 1 =>
    let oldAllowCalls := ctx.allowCalls
    let oldOps := ctx.ops
    match compileAST lk fuel { ctx with allowCalls := false } fn with
    | (ctx1, some e) =>
      let ctx1 := { ctx1 with allowCalls := oldAllowCalls, ops := oldOps }
      if e ≠ .funcCallNotAllowed then (ctx1, some e)
      else compileFunctionCallOldRest lk fuel ctx1 fn args id false
    | (ctx1, none) =>
      compileFunctionCallOldRest lk fuel
        { ctx1 with allowCalls := oldAllowCalls } fn args id true
termination_by structural fuel

/-- `compileCtx.compileFunctionCallOld`, continued (evalcompile.go lines
688-720): start opcode, conditional re-evaluation of the function
expression, target setting, argument loop, completion. -/
def compileFunctionCallOldRest (lk : EvalLookup) (fuel : Nat)
    (ctx : CompileCtx) (fn : Expr) (args : List Expr) (id : Nat)
    (hasFunc : Bool) : CompileCtx × Option CErr :=
  match fuel with
  | 0 => (ctx, some .outOfFuel)
  | fuel + 1 =>
    let ctx := pushOp ctx (.callInjectionStart hasFunc id)
    let jmpifIdx : Option Nat := if hasFunc then some ctx.ops.length else none
    let ctx := if hasFunc then pushOp ctx (.jump .jumpIfFalse true 0) else ctx
    let ctx := pushOp ctx .pop
    match compileAST lk fuel ctx fn with
    | (ctx, some e) => (ctx, some e)
    | (ctx, none) =>
      let ctx := match jmpifIdx with
        | some j => patchJump ctx j ctx.ops.length
        | none => ctx
      let ctx := pushOp ctx (.callInjectionSetTarget id)
      match compileArgsOld lk fuel ctx id 0 args with
      | (ctx, some e) => (ctx, some e)
      | (ctx, none) => (pushOp ctx (.callInjectionComplete id false), none)
termination_by structural fuel

/-- The argument loop of `compileFunctionCallOld` (evalcompile.go lines
707-716): compile, string-allocate literals, copy. -/
def compileArgsOld (lk : EvalLookup) (fuel : Nat) (ctx : CompileCtx)
    (id i : Nat) (args : List Expr) : CompileCtx × Option CErr :=
  match fuel with
  | 0 => (ctx, some .outOfFuel)
  | fuel + 1 =>
    match args with
    | [] => (ctx, none)
    | arg :: rest =>
      match compileAST lk fuel ctx arg with
      | (ctx, some _) => (ctx, some (.argEval i))
      | (ctx, none) =>
        let ctx := if isStringLiteral arg then compileAllocLiteralString ctx
          else ctx
        let ctx := pushOp ctx (.callInjectionCopyArg id i)
        compileArgsOld lk fuel ctx id (i + 1) rest
termination_by structural fuel

/-- `compileCtx.compileFunctionCallNew` (evalcompile.go lines 725-758). -/
def compileFunctionCallNew (lk : EvalLookup) (fuel : Nat)
    (ctx : CompileCtx) (fn : Expr) (args : List Expr) (id : Nat) :
    CompileCtx × Option CErr :=
  match fuel with
  | 0 => (ctx, some .outOfFuel)
  | fuel + 1 =>
    let ctx := compileGetDebugPinner ctx
    match compileAST lk fuel ctx fn with
    | (ctx, some e) => (ctx, some e)
    | (ctx, none) =>
      match compileArgsNew lk fuel ctx 0 args with
      | (ctx, some e) => (ctx, some e)
      | (ctx, none) =>
        let ctx := pushOp ctx (.roll args.length)
        let ctx := pushOp ctx (.callInjectionStart true id)
        let ctx := pushOp ctx .pop
        let ctx := pushOp ctx (.callInjectionSetTarget id)
        let ctx := pushCopyArgsRev id args.length ctx
        let ctx := pushOp ctx (.callInjectionComplete id true)
        (compilePinningLoop id ctx, none)
termination_by structural fuel

/-- The argument loop of `compileFunctionCallNew` (evalcompile.go lines
733-741); note the string allocation happens before the error check. -/
def compileArgsNew (lk : EvalLookup) (fuel : Nat) (ctx : CompileCtx)
    (i : Nat) (args : List Expr) : CompileCtx × Option CErr :=
  match fuel with
  | 0 => (ctx, some .outOfFuel)
  | fuel + 1 =>
    match args with
    | [] => (ctx, none)
    | arg :: rest =>
      match compileAST lk fuel ctx arg with
      | (ctx, err) =>
        let ctx := if isStringLiteral arg then compileAllocLiteralString ctx
          else ctx
        match err with
        | some _ => (ctx, some (.argEval i))
        | none => compileArgsNew lk fuel ctx (i + 1) rest
termination_by structural fuel

/-- `compileCtx.compileUnary` (evalcompile.go lines 578-585). -/
def compileUnary (lk : EvalLookup) (fuel : Nat) (ctx : CompileCtx)
    (x : Expr) (op : Op) : CompileCtx × Option CErr :=
  match fuel with
  | 0 => (ctx, some .outOfFuel)
  | fuel + 1 =>
    match compileAST lk fuel ctx x with
    | (ctx, some e) => (ctx, some e)
    | (ctx, none) => (pushOp ctx op, none)
termination_by structural fuel

/-- `compileCtx.compileTypeAssert` (evalcompile.go lines 587-605). -/
def compileTypeAssert (lk : EvalLookup) (fuel : Nat) (ctx : CompileCtx)
    (x ty : Expr) : CompileCtx × Option CErr :=
  match fuel with
  | 0 => (ctx, some .outOfFuel)
  | fuel + 1 =>
    match compileAST lk fuel ctx x with
    | (ctx, some e) => (ctx, some e)
    | (ctx, none) =>
      match ty with
      | .ident "data" => (pushOp ctx (.typeAssert none), none)
      | _ =>
        match lk.findTypeExpr ty with
        | .error e => (ctx, some e)
        | .ok typ => (pushOp ctx (.typeAssert (some typ)), none)
termination_by structural fuel

/-- `compileCtx.compileBinary` (evalcompile.go lines 607-621).  The Go
code back-patches the short-circuit jump through the `sop` pointer; the
model returns the index at which the jump was pushed (the middle
component) for the caller to patch. -/
def compileBinary (lk : EvalLookup) (fuel : Nat) (ctx : CompileCtx)
    (a b : Expr) (sop : Option JumpCond) (op : Op) :
    CompileCtx × Option Nat × Option CErr :=
  match fuel with
  | 0 => (ctx, none, some .outOfFuel)
  | fuel + 1 =>
    match compileAST lk fuel ctx a with
    | (ctx, some e) => (ctx, none, some e)
    | (ctx, none) =>
      let sidx : Option Nat :=
        match sop with
        | some _ => some ctx.ops.length
        | none => none
      let ctx := match sop with
        | some cond => pushOp ctx (.jump cond false 0)
        | none => ctx
      match compileAST lk fuel ctx b with
      | (ctx, some e) => (ctx, sidx, some e)
      | (ctx, none) => (pushOp ctx op, sidx, none)
termination_by structural fuel

/-- `compileCtx.compileReslice` (evalcompile.go lines 623-649). -/
def compileReslice (lk : EvalLookup) (fuel : Nat) (ctx : CompileCtx)
    (x : Expr) (lo hi : Option Expr) : CompileCtx × Option CErr :=
  match fuel with
  | 0 => (ctx, some .outOfFuel)
  | fuel + 1 =>
    match compileAST lk fuel ctx x with
    | (ctx, some e) => (ctx, some e)
    | (ctx, none) =>
      match hi with
      | some h =>
        match compileAST lk fuel ctx h with
        | (ctx, some e) => (ctx, some e)
        | (ctx, none) => compileResliceLow lk fuel ctx lo true
      | none => compileResliceLow lk fuel ctx lo false
termination_by structural fuel

/-- The `Low` handling and final `Reslice` emission of `compileReslice`
(evalcompile.go lines 638-648). -/
def compileResliceLow (lk : EvalLookup) (fuel : Nat) (ctx : CompileCtx)
    (lo : Option Expr) (hasHigh : Bool) : CompileCtx × Option CErr :=
  match fuel with
  | 0 => (ctx, some .outOfFuel)
  | fuel + 1 =>
    match lo with
    | some l =>
      match compileAST lk fuel ctx l with
      | (ctx, some e) => (ctx, some e)
      | (ctx, none) => (pushOp ctx (.reslice hasHigh), none)
    | none =>
      let ctx := pushOp ctx (.pushConst (.intC 0))
      (pushOp ctx (.reslice hasHigh), none)
termination_by structural fuel

/-- The element loop of the struct composite-literal case (evalcompile.go
lines 405-421).  Go discards the error of the element's `compileAST`
call; the model does the same. -/
def compileCompositeElts (lk : EvalLookup) (fuel : Nat) (ctx : CompileCtx)
    (fields : List String) (i : Nat)
    (elts : List (Option String × Expr)) : CompileCtx × Option CErr :=
  match fuel with
  | 0 => (ctx, some .outOfFuel)
  | fuel + 1 =>
    match elts with
    | [] => (ctx, none)
    | (key, value) :: rest =>
      let ctx := (compileAST lk fuel ctx value).1
      let field := match key with
        | some k => k
        | none => fields.getD i ""
      let ctx := pushOp ctx .dup
      let ctx := pushOp ctx (.select field)
      let ctx := pushOp ctx .setValue
      compileCompositeElts lk fuel ctx fields (i + 1) rest

termination_by structural fuel
end

/-- The fresh context built by `CompileAST` and `CompileSet`
(evalcompile.go lines 52 and 103). -/
def initialCtx (flags : Flags) : CompileCtx :=
  { ops := [], allowCalls := true, curCall := 0, flags := flags,
    firstCall := true }

/-- `evalop.CompileAST` (evalcompile.go lines 50-65): compile the
expression, append the pinner release, depth-check with terminal depth 1.
`Compile` (lines 67-81) is this after the external Go parser. -/
def CompileAST (fuel : Nat) (lk : EvalLookup) (t : Expr) (flags : Flags) :
    Except CErr (List Op) :=
  match compileAST lk fuel (initialCtx flags) t with
  | (_, some e) => .error e
  | (ctx, none) =>
    let ctx := compileDebugUnpin ctx
    match depthCheck ctx.ops 1 with
    | .error e => .error (.depthCheckFailed e)
    | .ok _ => .ok ctx.ops

/-- `evalop.CompileSet` (evalcompile.go lines 91-125), over the two
already-parsed sides: compile the right-hand side (string literals get
the allocation protocol), then the left-hand side, emit `SetValue`,
depth-check with terminal depth 0.  No pinner release is appended. -/
def CompileSet (fuel : Nat) (lk : EvalLookup) (lhe rhe : Expr)
    (flags : Flags) : Except CErr (List Op) :=
  match compileAST lk fuel (initialCtx flags) rhe with
  | (_, some e) => .error e
  | (ctx, none) =>
    let ctx := if isStringLiteral rhe then compileAllocLiteralString ctx
      else ctx
    match compileAST lk fuel ctx lhe with
    | (_, some e) => .error e
    | (ctx, none) =>
      let ctx := pushOp ctx .setValue
      match depthCheck ctx.ops 0 with
      | .error e => .error (.depthCheckFailed e)
      | .ok _ => .ok ctx.ops

end Evalop

namespace Evalop

/-! ### Shape functions for the emitted opcode blocks

Closed forms of the opcode lists produced by the emission helpers, used to
state structural theorems about compiled programs. -/

/-- The opcode list emitted by `pushSpecialArgs`. -/
def specialArgsOps (id : Nat) (args : List (Option Op)) (i : Nat) : List Op :=
  match args with
  | [] => []
  | some op :: rest => op :: .callInjectionCopyArg id i :: specialArgsOps id rest (i + 1)
  | none :: rest => .callInjectionCopyArg id i :: specialArgsOps id rest (i + 1)

/-- The opcode list emitted by `compileSpecialCallCore` with call id `id`. -/
def specialCallCoreOps (id : Nat) (fnname : String) (args : List (Option Op))
    (effPinning : Bool) : List Op :=
  .callInjectionStartSpecial id fnname :: .callInjectionSetTarget id ::
    specialArgsOps id args 0 ++ [.callInjectionComplete id effPinning]

/-- The pinner-acquisition block (special call to `runtime.debugPinner`
followed by `SetDebugPinner`), with call id `id`. -/
def acquisitionOps (id : Nat) : List Op :=
  specialCallCoreOps id DebugPinnerFunctionName [] false ++ [.setDebugPinner]

/-- The pinning-loop block emitted by `compilePinningLoop` when the loop
starts at instruction index `L`, for completing call `id`, with `id2` the
id of the inner `runtime.(*Pinner).Pin` special call. -/
def pinningLoopOps (L id id2 : Nat) : List Op :=
  .jump .jumpIfPinningDone false (L + 10) :: .pushPinAddress ::
    specialCallCoreOps id2 "runtime.(*Pinner).Pin" [some .pushDebugPinner, none] false ++
    [.pop, .jump .jumpAlways false L, .callInjectionComplete2 id]

/-- The pinner-release block emitted at program end by
`compileDebugUnpin`: a special call to `runtime.(*Pinner).Unpin` on the
stored pinner, then `Pop`, `PushNil`, `SetDebugPinner`. -/
def releaseOps (id : Nat) : List Op :=
  specialCallCoreOps id "runtime.(*Pinner).Unpin" [some .pushDebugPinner] false ++
    [.pop, .pushNil, .setDebugPinner]

/-- Whether an opcode is the start of a pinner acquisition (a special
call to `runtime.debugPinner`); `compileGetDebugPinner` is the only
emitter of such an opcode. -/
def isAcquisitionStart (op : Op) : Bool :=
  match op with
  | .callInjectionStartSpecial _ fn => fn == DebugPinnerFunctionName
  | _ => false

/-- Whether an opcode is the start of the pinner release (a special call
to `runtime.(*Pinner).Unpin`); `compileDebugUnpin` is the only emitter. -/
def isUnpinStart (op : Op) : Bool :=
  match op with
  | .callInjectionStartSpecial _ fn => fn == "runtime.(*Pinner).Unpin"
  | _ => false

/-- The pinner bookkeeping invariant of a compilation context: `firstCall`
was cleared only under `HasDebugPinner`, it is clear exactly when an
acquisition has been emitted, and no release has been emitted. -/
def PinnerInv (ctx : CompileCtx) : Prop :=
  (ctx.firstCall = false → ctx.flags.hasDebugPinner = true) ∧
  ctx.ops.any isAcquisitionStart = !ctx.firstCall ∧
  ctx.ops.any isUnpinStart = false

/-- One compilation step preserves the pinner invariant and leaves flags
and `allowCalls` as it found them. -/
def Preserves (ctx ctx' : CompileCtx) : Prop :=
  (PinnerInv ctx → PinnerInv ctx') ∧ ctx'.flags = ctx.flags ∧
    ctx'.allowCalls = ctx.allowCalls

/-- `Preserves` plus: under `allowCalls = false` the step cannot touch
`firstCall` (no call injection, hence no pinner acquisition, is reachable
with calls disallowed). -/
def PreservesF (ctx ctx' : CompileCtx) : Prop :=
  Preserves ctx ctx' ∧ (ctx.allowCalls = false → ctx'.firstCall = ctx.firstCall)

/-- The depth-totality property the verifier establishes (spec §8.1): the
table covers every instruction index plus the terminal position, every
entry is non-negative, the fall-through and jump edges out of every
instruction agree with the entries they reach, and the terminal entry is
the declared terminal depth. -/
def DepthTotal (ops : List Op) (depth : List Int) (endDepth : Int) : Prop :=
  depth.length = ops.length + 1 ∧
  (∀ k, k ≤ ops.length → 0 ≤ depth.getD k (-1)) ∧
  depth.getD ops.length (-1) = endDepth ∧
  ∀ k op, ops.get? k = some op →
    depth.getD (k + 1) (-1) =
      depth.getD k (-1) - (op.arity.1 : Int) + (op.arity.2 : Int) ∧
    ∀ cond popFlag t, op = .jump cond popFlag t →
      depth.getD t (-1) =
        depth.getD k (-1) - (op.arity.1 : Int) + (op.arity.2 : Int)

/-! ### Concrete fixtures -/

/-- A concrete scope: locals `a b f x y`, nothing else, no resolvable
types. -/
def lkC : EvalLookup :=
  { findTypeExpr := fun _ => .error .typeNotFound,
    hasLocal := fun n => n == "a" || n == "b" || n == "f" || n == "x" || n == "y",
    hasGlobal := fun _ _ => false,
    hasBuiltin := fun _ => false,
    lookupRegisterName := fun _ => none }

/-- The program compiled by `CompileSet` for `x = f()` under
`HasDebugPinner` with `f`, `x` locals: the pinner acquisition appears
(ops 0-3) but no release is ever appended, and the program ends in
`SetValue`. -/
def progSetCall : List Op :=
  [.callInjectionStartSpecial 1 DebugPinnerFunctionName,
   .callInjectionSetTarget 1, .callInjectionComplete 1 false,
   .setDebugPinner, .pushLocal "f" 0, .roll 0,
   .callInjectionStart true 0, .pop, .callInjectionSetTarget 0,
   .callInjectionComplete 0 true, .jump .jumpIfPinningDone false 20,
   .pushPinAddress, .callInjectionStartSpecial 2 "runtime.(*Pinner).Pin",
   .callInjectionSetTarget 2, .pushDebugPinner,
   .callInjectionCopyArg 2 0, .callInjectionCopyArg 2 1,
   .callInjectionComplete 2 false, .pop, .jump .jumpAlways false 10,
   .callInjectionComplete2 0, .pushLocal "x" 0, .setValue]

/-- The program compiled for `f("hi")` without `HasDebugPinner` (`f`
local): the legacy call-injection lowering with the string-allocation
block at ops 7-17. -/
def progCallStr : List Op :=
  [.pushLocal "f" 0, .callInjectionStart true 0,
   .jump .jumpIfFalse true 5, .pop, .pushLocal "f" 0,
   .callInjectionSetTarget 0,
   .pushConst (.fromLit .string "\"hi\""),
   .jump .jumpIfAllocStringChecksFail false 18,
   .callInjectionStartSpecial 1 "runtime.mallocgc",
   .callInjectionSetTarget 1, .pushLen, .callInjectionCopyArg 1 0,
   .pushNil, .callInjectionCopyArg 1 1, .pushConst (.boolC false),
   .callInjectionCopyArg 1 2, .callInjectionComplete 1 false,
   .convertAllocToString, .callInjectionCopyArg 0 0,
   .callInjectionComplete 0 false]

/-- The program compiled for `a && b` (both locals): the short-circuit
jump is back-patched to index 4, the `BoolToConst` instruction. -/
def progAndAB : List Op :=
  [.pushLocal "a" 0, .jump .jumpIfFalse false 4, .pushLocal "b" 0,
   .binary .land, .boolToConst]

end Evalop

namespace MapIter

/-! ### Concrete fixtures -/

/-- A Swiss-map environment whose every control byte reads `0xFE` (the
runtime's DELETED sentinel: high bit set, but different from `0x80`). -/
def envFE : SwissEnv :=
  { directoryLen := 1, loadTable := fun _ => none,
    readCtrl := fun _ => some 0xFE }

/-- A Swiss iterator positioned at a loaded group (address 64). -/
def itFE : SwissIter :=
  { maxNumGroups := 0, slotSize := 8, elemOff := 4, groupSize := 72,
    dirIdx := 0, tab := none, groupIdx := 0, group := 64, slotIdx := 0,
    groupCount := 0, curKey := none, curValue := none, unreadable := false }

/-- A mid-grow classic map: 2 new buckets (so `oldmask = 0`), old bucket
at address 2000 whose first tophash byte is 0 (not evacuated). -/
def envC3 : ClassicEnv :=
  { loadBucket := fun _ => none,
    tophash0 := fun a => if a = 2000 then some 0 else none }

/-- A classic iterator about to visit new bucket 1 — the high half of the
split of old bucket 0 (Go 1.12 sentinels: empty-one 1, min-tophash 5). -/
def itC3 : ClassicIter :=
  { numbuckets := 2, oldmask := 0, bucketsAddr := 1000, bucketSize := 100,
    oldbucketsAddr := 2000, oldbucketSize := 100, b := none, bidx := 1,
    tophashes := none, idx := 0, overflow := none, maxNumBuckets := 0,
    hashTophashEmptyOne := 1, hashMinTopHash := 5, unreadable := false }

/-- A classic-map environment with nothing readable (a nil map reads no
memory at all, so any environment serves for its iteration). -/
def envNil : ClassicEnv :=
  { loadBucket := fun _ => none, tophash0 := fun _ => none }

end MapIter

/-!
# Theorems

Helper lemmas first, then one theorem per claim (with witnesses and
counterexamples where their statuses need them). -/

namespace MapIter

/-- The slot loop yields nothing iff every remaining slot of the group is
(treated as) empty; the state updates along the way touch only the
`unreadable` flag, never the group address. -/
theorem swissSlotsGo_false_iff (env : SwissEnv) :
    ∀ (n : Nat) (it : SwissIter) (k : Nat), swissMapGroupSlots - k ≤ n →
      ((swissSlotsGo env it k).2 = false ↔
        ∀ j, k ≤ j → j < swissMapGroupSlots →
          slotIsEmpty env it.group j = true) := by
  intro n
  induction n with
  | zero =>
    intro it k hk
    have h8 : ¬ k < swissMapGroupSlots := by omega
    rw [swissSlotsGo]
    simp only [dif_neg h8]
    constructor
    · intro _ j hkj hj8
      omega
    · intro _
      trivial
  | succ n ih =>
    intro it k hk
    by_cases h8 : k < swissMapGroupSlots
    · rw [swissSlotsGo]
      simp only [dif_pos h8]
      by_cases he : slotIsEmpty env it.group k = true
      · rw [if_pos he]
        have hrec := ih
          { it with unreadable :=
              it.unreadable || (env.readCtrl (it.group + k)).isNone }
          (k + 1) (by omega)
        simp only at hrec
        rw [hrec]
        constructor
        · intro hall j hkj hj8
          rcases Nat.eq_or_lt_of_le hkj with rfl | hlt
          · exact he
          · exact hall j hlt hj8
        · intro hall j hk1j hj8
          exact hall j (by omega) hj8
      · rw [if_neg he]
        simp only []
        constructor
        · intro habs
          exact absurd habs (by simp)
        · intro hall
          exact absurd (hall k (Nat.le_refl k) h8) he
    · rw [swissSlotsGo]
      simp only [dif_neg h8]
      constructor
      · intro _ j hkj hj8
        omega
      · intro _
        trivial

/-- C2 (amended): in the Swiss map iterator a slot of the current group
is treated as empty iff its control byte cannot be read or has the high
bit (`0b10000000`) set — a masked test, not an equality test against
`0x80` — and the slot loop yields a slot iff some remaining control byte
has the high bit clear. -/
theorem c2_swiss_slot_empty_amended (env : SwissEnv) (it : SwissIter)
    (k : Nat) :
    (slotIsEmpty env it.group k = false ↔
      ∃ n, env.readCtrl (it.group + k) = some n ∧ n &&& 0x80 ≠ 0x80) ∧
    ((swissSlotsGo env it k).2 = false ↔
      ∀ j, k ≤ j → j < swissMapGroupSlots →
        slotIsEmpty env it.group j = true) := by
  constructor
  · unfold slotIsEmpty
    cases h : env.readCtrl (it.group + k) with
    | none => simp
    | some n => simp [swissTableCtrlEmpty, h]
  · exact swissSlotsGo_false_iff env (swissMapGroupSlots - k) it k (Nat.le_refl _)

/-- C2 (counterexample): a control byte `0xFE` (the runtime's DELETED
sentinel) differs from `0x80`, yet the slot is treated as empty and the
slot loop never yields it — refuting "slot is empty iff the control byte
equals `0b10000000`; every slot whose control byte differs from `0x80` is
yielded". -/
theorem c2_counterexample :
    slotIsEmpty envFE itFE.group 0 = true ∧
    envFE.readCtrl (itFE.group + 0) = some 0xFE ∧
    (0xFE : Nat) ≠ 0x80 ∧
    (swissSlotsGo envFE itFE 0).2 = false := by
  refine ⟨by decide, rfl, by decide, ?_⟩
  simp [swissSlotsGo, slotIsEmpty, envFE, itFE, swissTableCtrlEmpty,
        swissMapGroupSlots, show (254 : Nat) &&& 128 = 128 from by decide]

/-- C3 (amended): during incremental growth, for the bucket index under
examination the selection loop (a) iterates the new bucket when the old
bucket `i & oldmask` is evacuated, (b) iterates the old bucket in its
place when it is not evacuated and `i` is the low half of the split, and
(c) skips index `i` entirely — visiting neither bucket and advancing to
`i+1` — when it is not evacuated and `i` is the high half. -/
theorem c3_growth_fallback_amended (env : ClassicEnv) (it : ClassicIter)
    (i : Nat) (h1 : i < it.numbuckets) (h2 : it.oldbucketsAddr ≠ 0) :
    bucketSelLoop env it i =
      if mapEvacuated env it
          (it.oldbucketsAddr + it.oldbucketSize * (i &&& it.oldmask)) then
        some (it.bucketsAddr + it.bucketSize * i, i)
      else if i &&& it.oldmask = i then
        some (it.oldbucketsAddr + it.oldbucketSize * (i &&& it.oldmask), i)
      else bucketSelLoop env it (i + 1) := by
  rw [bucketSelLoop]
  simp only [if_pos h1, if_neg h2]

/-- Witness for C3 (amended) at the concrete mid-grow fixture. -/
theorem c3_growth_fallback_amended_witness :
    1 < itC3.numbuckets ∧ itC3.oldbucketsAddr ≠ 0 ∧
    bucketSelLoop envC3 itC3 1 =
      (if mapEvacuated envC3 itC3
           (itC3.oldbucketsAddr + itC3.oldbucketSize * (1 &&& itC3.oldmask)) then
         some (itC3.bucketsAddr + itC3.bucketSize * 1, 1)
       else if 1 &&& itC3.oldmask = 1 then
         some (itC3.oldbucketsAddr + itC3.oldbucketSize * (1 &&& itC3.oldmask), 1)
       else bucketSelLoop envC3 itC3 (1 + 1)) :=
  ⟨by decide, by decide,
    c3_growth_fallback_amended envC3 itC3 1 (by decide) (by decide)⟩

/-- C3 (counterexample): new bucket 1 whose old bucket 0 is not evacuated
and which is the high half of the split (`1 & oldmask ≠ 1`) is skipped —
`nextBucket` returns `false` with no current bucket — refuting "in every
other case the new bucket i itself is iterated directly". -/
theorem c3_counterexample :
    mapEvacuated envC3 itC3 2000 = false ∧
    (1 &&& itC3.oldmask ≠ 1) ∧
    (nextBucket envC3 itC3).2 = false ∧
    (nextBucket envC3 itC3).1.b = none := by
  refine ⟨by decide, by decide, ?_, ?_⟩ <;>
    simp [nextBucket, nextBucket.nextBucketFresh, bucketSelLoop,
          classicCapCheck, mapEvacuated, envC3, itC3]

/-- C9: for a map whose header pointer is nil, `mapIterator` returns the
classic iterator of lines 32/36-39 with `numbuckets = 0`; its `next`
immediately returns `false` (for any environment and any fuel) and the
owning variable's `Unreadable` flag stays unset — a nil map iterates as
empty rather than as an error. -/
theorem c9_nil_map_iterates_empty (m fuel : Nat) (env : ClassicEnv) :
    (nilMapIterator m).numbuckets = 0 ∧
    (classicNext env (nilMapIterator m) (fuel + 1)).2 = false ∧
    (classicNext env (nilMapIterator m) (fuel + 1)).1.unreadable = false := by
  have hcap : classicCapCheck m 0 = false := by
    simp [classicCapCheck]
    omega
  refine ⟨rfl, ?_, ?_⟩ <;>
    simp [classicNext, nextBucket, nextBucket.nextBucketFresh, bucketSelLoop,
          hcap, nilMapIterator]

/-- C10: a cap of 0 disables the iteration limit in both map iterators —
the classic bucket-cap test and the Swiss group-cap test never fire when
the cap is 0, and either test fires only when the cap is strictly
positive (the classic test fires exactly when `bidx` reaches the cap, the
Swiss one exactly when `groupIdx + groupCount` reaches it). -/
theorem c10_cap_zero_disables (m b g c : Nat) :
    classicCapCheck 0 b = false ∧
    swissCapCheck 0 g c = false ∧
    (classicCapCheck m b = true ↔ 0 < m ∧ m ≤ b) ∧
    (swissCapCheck m g c = true ↔ 0 < m ∧ m ≤ g + c) := by
  refine ⟨by simp [classicCapCheck], by simp [swissCapCheck], ?_, ?_⟩ <;>
    simp [classicCapCheck, swissCapCheck]

end MapIter

namespace Evalop

/-! ### Depth-verifier lemmas -/

/-- `getD` after `set` at the written index. -/
theorem list_getD_set_self :
    ∀ (l : List Int) (j : Nat) (d : Int), j < l.length →
      (l.set j d).getD j (-1) = d
  | [], _, _, h => absurd h (by simp)
  | _ :: _, 0, _, _ => rfl
  | _ :: l, j + 1, d, h => list_getD_set_self l j d (by simpa using h)

/-- `getD` after `set` at any other index. -/
theorem list_getD_set_ne :
    ∀ (l : List Int) (j p : Nat) (d : Int), p ≠ j →
      (l.set j d).getD p (-1) = l.getD p (-1)
  | [], _, _, _, _ => rfl
  | _ :: _, 0, 0, _, h => absurd rfl h
  | _ :: _, 0, _ + 1, _, _ => rfl
  | _ :: _, _ + 1, 0, _, _ => rfl
  | _ :: l, j + 1, p + 1, d, h =>
    list_getD_set_ne l j p d (fun e => h (by omega))

/-- What a successful `checkAndSet` guarantees: the table keeps its
length, the entry at `j` now equals `d`, every other entry is untouched,
and every entry that was already determined (non-negative) is untouched. -/
theorem checkAndSet_ok (depth : List Int) (j : Nat) (d : Int)
    (out : List Int) (h : checkAndSet depth j d = .ok out) :
    out.length = depth.length ∧ out.getD j (-1) = d ∧
    (∀ p, p ≠ j → out.getD p (-1) = depth.getD p (-1)) ∧
    (∀ p, 0 ≤ depth.getD p (-1) → out.getD p (-1) = depth.getD p (-1)) := by
  unfold checkAndSet at h
  by_cases hj : j < depth.length
  · rw [if_pos hj] at h
    by_cases hneg : depth.getD j (-1) < 0
    · simp only [if_pos hneg] at h
      rw [list_getD_set_self depth j d hj] at h
      rw [if_neg (fun hd : d ≠ d => hd rfl)] at h
      have hout : depth.set j d = out := by simpa using h
      subst hout
      refine ⟨by simp, list_getD_set_self depth j d hj, ?_, ?_⟩
      · intro p hp
        exact list_getD_set_ne depth j p d hp
      · intro p hp
        by_cases hpj : p = j
        · subst hpj
          exact absurd hp (by omega)
        · exact list_getD_set_ne depth j p d hpj
    · simp only [if_neg hneg] at h
      by_cases hd : d ≠ depth.getD j (-1)
      · rw [if_pos hd] at h
        exact absurd h (by simp)
      · rw [if_neg hd] at h
        have hout : depth = out := by simpa using h
        subst hout
        push_neg at hd
        exact ⟨rfl, hd.symm ▸ rfl, fun _ _ => rfl, fun _ _ => rfl⟩
  · rw [if_neg hj] at h
    exact absurd h (by simp)


/-- What a successful run of the verifier loop over `rest` (starting at
absolute index `i`) guarantees: the table keeps its length, determined
entries persist, every sequential position of the processed range is
determined non-negative (once the entry position is), and the
fall-through and jump equations hold of the final table. -/
theorem depthCheckLoop_spec :
    ∀ (rest : List Op) (i : Nat) (depth : List Int) (seen : Bool)
      (out : List Int), depthCheckLoop i rest depth seen = .ok out →
      out.length = depth.length ∧
      (∀ p, 0 ≤ depth.getD p (-1) → out.getD p (-1) = depth.getD p (-1)) ∧
      (0 ≤ depth.getD i (-1) →
        ∀ k, i ≤ k → k ≤ i + rest.length → 0 ≤ out.getD k (-1)) ∧
      (∀ k op, rest.get? k = some op →
        out.getD (i + k + 1) (-1) =
          out.getD (i + k) (-1) - (op.arity.1 : Int) + (op.arity.2 : Int) ∧
        ∀ cond pf t, op = .jump cond pf t →
          out.getD t (-1) =
            out.getD (i + k) (-1) - (op.arity.1 : Int) + (op.arity.2 : Int)) := by
  intro rest
  induction rest with
  | nil =>
    intro i depth seen out h
    unfold depthCheckLoop at h
    have hout : depth = out := by simpa using h
    subst hout
    refine ⟨rfl, fun _ _ => rfl, ?_, ?_⟩
    · intro h0 k hik hk
      have hk' : k = i := by simp at hk; omega
      exact hk' ▸ h0
    · intro k op hop
      exact absurd hop (by simp)
  | cons op rest ih =>
    intro i depth seen out h
    simp only [depthCheckLoop] at h
    by_cases hpop : depth.getD i (-1) < (op.arity.1 : Int)
    · rw [if_pos hpop] at h
      exact absurd h (by simp)
    · rw [if_neg hpop] at h
      -- step 1: the checkAndSet for the fall-through edge
      split at h
      case _ e hcs => exact absurd h (by simp)
      case _ depth1 hcs =>
        obtain ⟨hlen1, hset1, hothers1, hpers1⟩ :=
          checkAndSet_ok _ _ _ _ hcs
        have hd0 : 0 ≤ depth.getD i (-1) - (op.arity.1 : Int) + op.arity.2 := by
          omega
        have key : ∃ depth2 seen2,
            depthCheckLoop (i + 1) rest depth2 seen2 = .ok out ∧
            depth2.length = depth1.length ∧
            (∀ p, 0 ≤ depth1.getD p (-1) →
              depth2.getD p (-1) = depth1.getD p (-1)) ∧
            (∀ cond pf t, op = .jump cond pf t →
              depth2.getD t (-1) =
                depth.getD i (-1) - (op.arity.1 : Int) + op.arity.2) := by
          split at h
          · -- jump arm
            rename_i cond pf target
            split at h
            · exact absurd h (by simp)
            · rename_i depth2 hcs2
              obtain ⟨hlen2, hset2, hothers2, hpers2⟩ :=
                checkAndSet_ok _ _ _ _ hcs2
              refine ⟨depth2, seen, h, hlen2, hpers2, ?_⟩
              intro cond' pf' t' heq
              cases heq
              exact hset2
          · -- CallInjectionStartSpecial arm
            exact ⟨depth1, true, h, rfl, fun _ _ => rfl,
              by intro _ _ _ heq; cases heq⟩
          · -- CallInjectionComplete arm
            split at h
            · exact absurd h (by simp)
            · exact ⟨depth1, seen, h, rfl, fun _ _ => rfl,
                by intro _ _ _ heq; cases heq⟩
          · -- default arm
            rename_i hne1 hne2 hne3
            refine ⟨depth1, seen, h, rfl, fun _ _ => rfl, ?_⟩
            intro cond pf t heq
            exact absurd heq (hne1 cond pf t)
        obtain ⟨depth2, seen2, hloop, hlen2, hpers2, hjfact⟩ := key
        obtain ⟨hlenO, hpersO, hnonnegO, heqO⟩ := ih (i + 1) depth2 seen2 out hloop
        have hd1_i : depth1.getD i (-1) = depth.getD i (-1) :=
          hothers1 i (by omega)
        have hge0_i : (0:Int) ≤ depth.getD i (-1) := by omega
        have hd2_i : depth2.getD i (-1) = depth.getD i (-1) := by
          rw [hpers2 i (by rw [hd1_i]; exact hge0_i)]
          exact hd1_i
        have hd2_i1 : depth2.getD (i + 1) (-1) =
            depth.getD i (-1) - (op.arity.1 : Int) + op.arity.2 := by
          rw [hpers2 (i + 1) (by rw [hset1]; exact hd0)]
          exact hset1
        have hout_i : out.getD i (-1) = depth.getD i (-1) := by
          rw [hpersO i (by rw [hd2_i]; exact hge0_i)]
          exact hd2_i
        have hout_i1 : out.getD (i + 1) (-1) =
            depth.getD i (-1) - (op.arity.1 : Int) + op.arity.2 := by
          rw [hpersO (i + 1) (by rw [hd2_i1]; exact hd0)]
          exact hd2_i1
        refine ⟨by rw [hlenO, hlen2, hlen1], ?_, ?_, ?_⟩
        · intro p hp
          have h1 := hpers1 p hp
          have h2 := hpers2 p (by rw [h1]; exact hp)
          have h3 := hpersO p (by rw [h2, h1]; exact hp)
          rw [h3, h2, h1]
        · intro _ k hik hk
          rcases Nat.eq_or_lt_of_le hik with rfl | hlt
          · rw [hout_i]; exact hge0_i
          · exact hnonnegO (by rw [hd2_i1]; exact hd0) k hlt
              (by simp only [List.length_cons] at hk; omega)
        · intro k op' hop'
          cases k with
          | zero =>
            have hopeq : op = op' := by simpa using hop'
            subst hopeq
            constructor
            · rw [show i + 0 + 1 = i + 1 from by omega,
                  show i + 0 = i from by omega, hout_i1, hout_i]
            · intro cond pf t heq
              have hj2 := hjfact cond pf t heq
              have hjout : out.getD t (-1) =
                  depth.getD i (-1) - (op.arity.1 : Int) + op.arity.2 := by
                rw [hpersO t (by rw [hj2]; exact hd0)]
                exact hj2
              rw [show i + 0 = i from by omega, hjout, hout_i]
          | succ k' =>
            have hop2 : rest.get? k' = some op' := by simpa using hop'
            have hmain := heqO k' op' hop2
            constructor
            · have hx := hmain.1
              rw [show i + 1 + k' + 1 = i + (k' + 1) + 1 from by omega,
                  show i + 1 + k' = i + (k' + 1) from by omega] at hx
              exact hx
            · intro cond pf t heq
              have hx := hmain.2 cond pf t heq
              rw [show i + 1 + k' = i + (k' + 1) from by omega] at hx
              exact hx

/-- Inversion of a successful `depthCheck`: the loop ran to completion
from the initial table and the terminal entry matches. -/
theorem depthCheck_ok_inv (ops : List Op) (endDepth : Int)
    (depth : List Int) (h : depthCheck ops endDepth = .ok depth) :
    depthCheckLoop 0 ops
        ((List.replicate (ops.length + 1) (-1 : Int)).set 0 0) false =
      .ok depth ∧
    depth.getD ops.length (-1) = endDepth := by
  unfold depthCheck at h
  simp only [] at h
  split at h
  · exact absurd h (by simp)
  · rename_i depth' hloop
    by_cases hend : depth'.getD ops.length (-1) ≠ endDepth
    · rw [if_pos hend] at h
      exact absurd h (by simp)
    · rw [if_neg hend] at h
      have : depth' = depth := by simpa using h
      subst this
      push_neg at hend
      exact ⟨hloop, hend⟩

/-- The initial table: entry 0 is 0, the length is `n + 1`. -/
theorem initial_table_facts (n : Nat) :
    ((List.replicate (n + 1) (-1 : Int)).set 0 0).length = n + 1 ∧
    ((List.replicate (n + 1) (-1 : Int)).set 0 0).getD 0 (-1) = 0 := by
  constructor
  · simp
  · exact list_getD_set_self _ 0 0 (by simp)

/-- C1: for every program accepted by the depth verifier — in particular
every program returned without error by `CompileAST` (terminal depth 1)
or `CompileSet` (terminal depth 0) — the verifier's table assigns a
(unique, being a function of the index) non-negative depth to every
instruction index, all incoming fall-through and jump edges agree with
the assigned depths, and the depth after the last instruction equals the
declared terminal depth. -/
theorem c1_depth_totality :
    (∀ (ops : List Op) (endDepth : Int) (depth : List Int),
      depthCheck ops endDepth = .ok depth → DepthTotal ops depth endDepth) ∧
    (∀ (fuel : Nat) (lk : EvalLookup) (t : Expr) (flags : Flags)
      (prog : List Op), CompileAST fuel lk t flags = .ok prog →
      ∃ depth, depthCheck prog 1 = .ok depth ∧ DepthTotal prog depth 1) ∧
    (∀ (fuel : Nat) (lk : EvalLookup) (lhe rhe : Expr) (flags : Flags)
      (prog : List Op), CompileSet fuel lk lhe rhe flags = .ok prog →
      ∃ depth, depthCheck prog 0 = .ok depth ∧ DepthTotal prog depth 0) := by
  have main : ∀ (ops : List Op) (endDepth : Int) (depth : List Int),
      depthCheck ops endDepth = .ok depth → DepthTotal ops depth endDepth := by
    intro ops endDepth depth h
    obtain ⟨hloop, hend⟩ := depthCheck_ok_inv ops endDepth depth h
    obtain ⟨hlen0, hget0⟩ := initial_table_facts ops.length
    obtain ⟨hlen, _hpers, hnonneg, heqs⟩ :=
      depthCheckLoop_spec ops 0 _ false depth hloop
    refine ⟨by rw [hlen, hlen0], ?_, hend, ?_⟩
    · intro k hk
      exact hnonneg (by rw [hget0]) k (Nat.zero_le k) (by omega)
    · intro k op hop
      have := heqs k op hop
      simpa using this
  refine ⟨main, ?_, ?_⟩
  · intro fuel lk t flags prog h
    unfold CompileAST at h
    split at h
    · exact absurd h (by simp)
    · rename_i ctx hcomp
      simp only [] at h
      split at h
      · exact absurd h (by simp)
      · rename_i depth hdc
        have hpr : (compileDebugUnpin ctx).ops = prog := by simpa using h
        subst hpr
        exact ⟨depth, hdc, main _ 1 depth hdc⟩
  · intro fuel lk lhe rhe flags prog h
    unfold CompileSet at h
    split at h
    · exact absurd h (by simp)
    · rename_i ctx hcomp
      simp only [] at h
      split at h
      · exact absurd h (by simp)
      · rename_i ctx2 hcomp2
        split at h
        · exact absurd h (by simp)
        · rename_i depth hdc
          have hpr : (pushOp ctx2 Op.setValue).ops = prog := by simpa using h
          subst hpr
          exact ⟨depth, hdc, main _ 0 depth hdc⟩

/-- The verifier loop enforces the pinning order: a successful run means
every `CallInjectionComplete{DoPinning:true}` in the remaining
instructions either came after `debugPinnerSeen` was already set or is
preceded, within the remaining instructions, by a
`CallInjectionStartSpecial`. -/
theorem depthCheckLoop_pinning :
    ∀ (rest : List Op) (i : Nat) (depth : List Int) (seen : Bool)
      (out : List Int), depthCheckLoop i rest depth seen = .ok out →
      ∀ k id, rest.get? k = some (.callInjectionComplete id true) →
        seen = true ∨
        ∃ j, j < k ∧ ∃ id2 fn,
          rest.get? j = some (.callInjectionStartSpecial id2 fn) := by
  intro rest
  induction rest with
  | nil =>
    intro i depth seen out h k id hop
    exact absurd hop (by simp)
  | cons op rest ih =>
    intro i depth seen out h k id hop
    simp only [depthCheckLoop] at h
    by_cases hpop : depth.getD i (-1) < (op.arity.1 : Int)
    · rw [if_pos hpop] at h
      exact absurd h (by simp)
    · rw [if_neg hpop] at h
      split at h
      · exact absurd h (by simp)
      · rename_i depth1 hcs
        split at h
        · -- jump arm
          split at h
          · exact absurd h (by simp)
          · rename_i depth2 hcs2
            cases k with
            | zero => simp at hop
            | succ k' =>
              rcases ih (i + 1) depth2 seen out h k' id (by simpa using hop) with
                hseen | ⟨j, hj, id2, fn, hj2⟩
              · exact Or.inl hseen
              · exact Or.inr ⟨j + 1, by omega, id2, fn, by simpa using hj2⟩
        · -- CallInjectionStartSpecial arm
          rename_i sid sfn
          cases k with
          | zero => simp at hop
          | succ k' =>
            exact Or.inr ⟨0, by omega, sid, sfn, rfl⟩
        · -- CallInjectionComplete arm
          rename_i cid cdoPin
          split at h
          · exact absurd h (by simp)
          · rename_i hviol
            cases k with
            | zero =>
              have hopeq : Op.callInjectionComplete cid cdoPin =
                  Op.callInjectionComplete id true := by simpa using hop
              cases hopeq
              left
              by_cases hs : seen = true
              · exact hs
              · have hsf : seen = false := by simpa using hs
                subst hsf
                simp at hviol
            | succ k' =>
              rcases ih (i + 1) depth1 seen out h k' id (by simpa using hop) with
                hseen | ⟨j, hj, id2, fn, hj2⟩
              · exact Or.inl hseen
              · exact Or.inr ⟨j + 1, by omega, id2, fn, by simpa using hj2⟩
        · -- default arm
          rename_i hne1 hne2 hne3
          cases k with
          | zero =>
            have : op = Op.callInjectionComplete id true := by simpa using hop
            exact absurd this (hne3 id true)
          | succ k' =>
            rcases ih (i + 1) depth1 seen out h k' id (by simpa using hop) with
              hseen | ⟨j, hj, id2, fn, hj2⟩
            · exact Or.inl hseen
            · exact Or.inr ⟨j + 1, by omega, id2, fn, by simpa using hj2⟩

/-- C7: in every program that passes the depth verifier, every
`CallInjectionComplete` opcode with `DoPinning` set is preceded by a
`CallInjectionStartSpecial` at a strictly earlier index; equivalently the
verifier rejects any program in which a pinning completion occurs before
the first special-call start. -/
theorem c7_pinning_requires_special_start (ops : List Op) (endDepth : Int)
    (depth : List Int) (h : depthCheck ops endDepth = .ok depth)
    (i id : Nat) (hop : ops.get? i = some (.callInjectionComplete id true)) :
    ∃ j, j < i ∧ ∃ id2 fn,
      ops.get? j = some (.callInjectionStartSpecial id2 fn) := by
  obtain ⟨hloop, _⟩ := depthCheck_ok_inv ops endDepth depth h
  rcases depthCheckLoop_pinning ops 0 _ false depth hloop i id hop with
    hseen | hex
  · exact absurd hseen (by simp)
  · exact hex

/-- Witness for C7 at a concrete two-instruction program. -/
theorem c7_pinning_requires_special_start_witness :
    depthCheck [Op.callInjectionStartSpecial 0 "runtime.mallocgc",
                Op.callInjectionComplete 0 true] 2 =
      .ok [0, 1, 2] ∧
    [Op.callInjectionStartSpecial 0 "runtime.mallocgc",
     Op.callInjectionComplete 0 true].get? 1 =
      some (.callInjectionComplete 0 true) ∧
    (∃ j, j < 1 ∧ ∃ id2 fn,
      [Op.callInjectionStartSpecial 0 "runtime.mallocgc",
       Op.callInjectionComplete 0 true].get? j =
        some (.callInjectionStartSpecial id2 fn)) :=
  ⟨rfl, rfl,
    c7_pinning_requires_special_start
      [Op.callInjectionStartSpecial 0 "runtime.mallocgc",
       Op.callInjectionComplete 0 true] 2 [0, 1, 2] rfl 1 0 rfl⟩

/-- `get?` at the junction of an append. -/
theorem list_get?_append_len :
    ∀ (pre : List Op) (x : Op) (rest : List Op),
      (pre ++ x :: rest).get? pre.length = some x
  | [], _, _ => rfl
  | _ :: pre, x, rest => list_get?_append_len pre x rest

/-- `set` at the junction of an append. -/
theorem list_set_append_len :
    ∀ (pre : List Op) (x y : Op) (rest : List Op),
      (pre ++ x :: rest).set pre.length y = pre ++ y :: rest
  | [], _, _, _ => rfl
  | a :: pre, x, y, rest =>
    congrArg (a :: ·) (list_set_append_len pre x y rest)

/-- Back-patching a jump sitting at the junction of an append. -/
theorem patchJump_append (ctx : CompileCtx) (pre : List Op)
    (cond : JumpCond) (pf : Bool) (t0 : Nat) (rest : List Op)
    (h : ctx.ops = pre ++ .jump cond pf t0 :: rest) (target : Nat) :
    patchJump ctx pre.length target =
      { ctx with ops := pre ++ .jump cond pf target :: rest } := by
  unfold patchJump
  rw [h, list_get?_append_len]
  dsimp only
  rw [list_set_append_len]

/-- `pushSpecialArgs` appends exactly `specialArgsOps`. -/
theorem pushSpecialArgs_eq :
    ∀ (args : List (Option Op)) (id i : Nat) (ctx : CompileCtx),
      pushSpecialArgs id args i ctx =
        { ctx with ops := ctx.ops ++ specialArgsOps id args i } := by
  intro args
  induction args with
  | nil =>
    intro id i ctx
    simp [pushSpecialArgs, specialArgsOps]
  | cons arg rest ih =>
    intro id i ctx
    cases arg with
    | some op =>
      simp [pushSpecialArgs, specialArgsOps, ih rest.length, pushOp, ih]
    | none =>
      simp [pushSpecialArgs, specialArgsOps, pushOp, ih]

/-- `compileSpecialCallCore` appends exactly `specialCallCoreOps` and
consumes one call id. -/
theorem compileSpecialCallCore_eq (fnname : String) (args : List (Option Op))
    (eff : Bool) (ctx : CompileCtx) :
    compileSpecialCallCore fnname args eff ctx =
      { ctx with curCall := ctx.curCall + 1,
                 ops := ctx.ops ++ specialCallCoreOps ctx.curCall fnname args eff } := by
  unfold compileSpecialCallCore
  simp [pushOp, pushSpecialArgs_eq, specialCallCoreOps]

/-- `compileGetDebugPinner` appends the acquisition block exactly when
this is the first call and `HasDebugPinner` is set. -/
theorem compileGetDebugPinner_eq (ctx : CompileCtx) :
    compileGetDebugPinner ctx =
      if ctx.firstCall && ctx.flags.hasDebugPinner then
        { ctx with curCall := ctx.curCall + 1,
                   ops := ctx.ops ++ acquisitionOps ctx.curCall,
                   firstCall := false }
      else ctx := by
  unfold compileGetDebugPinner
  split
  · simp [compileSpecialCallCore_eq, pushOp, acquisitionOps]
  · rfl

/-- `compilePinningLoop` appends exactly `pinningLoopOps` and consumes
one call id (for the inner `Pin` special call). -/
theorem compilePinningLoop_eq (id : Nat) (ctx : CompileCtx) :
    compilePinningLoop id ctx =
      { ctx with curCall := ctx.curCall + 1,
                 ops := ctx.ops ++ pinningLoopOps ctx.ops.length id ctx.curCall } := by
  unfold compilePinningLoop
  simp only [pushOp, compileSpecialCallCore_eq]
  rw [patchJump_append _ ctx.ops .jumpIfPinningDone false 0
        (Op.pushPinAddress ::
          (specialCallCoreOps ctx.curCall "runtime.(*Pinner).Pin"
            [some Op.pushDebugPinner, none] false ++
           [Op.pop, Op.jump .jumpAlways false ctx.ops.length]))
        (by simp) _]
  simp [pinningLoopOps, specialCallCoreOps, specialArgsOps, List.append_assoc]

theorem length_acquisitionOps (id : Nat) : (acquisitionOps id).length = 4 := rfl

theorem length_mallocgcCoreOps (id : Nat) (eff : Bool) :
    (specialCallCoreOps id "runtime.mallocgc"
      [some .pushLen, some .pushNil, some (.pushConst (.boolC false))]
      eff).length = 9 := rfl

theorem length_pinningLoopOps (L id id2 : Nat) :
    (pinningLoopOps L id id2).length = 11 := rfl

theorem compileAllocLiteralString_shape (ctx : CompileCtx) :
    ∃ (mid : List Op) (N : Nat),
      (compileAllocLiteralString ctx).ops =
        ctx.ops ++ .jump .jumpIfAllocStringChecksFail false N :: mid ++
          [.convertAllocToString] ∧
      Op.convertAllocToString ∉ mid ∧
      N = ctx.ops.length + 2 + mid.length := by
  unfold compileAllocLiteralString compileSpecialCall
  simp only [pushOp, compileGetDebugPinner_eq, compileSpecialCallCore_eq,
             compilePinningLoop_eq]
  by_cases hdp : ctx.flags.hasDebugPinner = true
  · by_cases hfc : ctx.firstCall = true
    · simp only [hdp, hfc, Bool.and_self, if_true, Bool.and_true, if_pos,
                 List.length_append, List.length_cons, List.length_nil,
                 length_acquisitionOps, length_mallocgcCoreOps,
                 length_pinningLoopOps]
      refine ⟨acquisitionOps ctx.curCall ++
          specialCallCoreOps (ctx.curCall + 1) "runtime.mallocgc"
            [some .pushLen, some .pushNil, some (.pushConst (.boolC false))]
            true ++
          pinningLoopOps (ctx.ops.length + 1 + 4 + 9) (ctx.curCall + 1)
            (ctx.curCall + 1 + 1),
        ctx.ops.length + 1 + 4 + 9 + 11 + 1, ?_, ?_, ?_⟩
      · rw [patchJump_append _ ctx.ops .jumpIfAllocStringChecksFail false 0
              ((acquisitionOps ctx.curCall ++
                specialCallCoreOps (ctx.curCall + 1) "runtime.mallocgc"
                  [some .pushLen, some .pushNil, some (.pushConst (.boolC false))]
                  true ++
                pinningLoopOps (ctx.ops.length + 1 + 4 + 9) (ctx.curCall + 1)
                  (ctx.curCall + 1 + 1)) ++ [Op.convertAllocToString])
              (by simp [List.append_assoc]) _]
        simp
      · simp [acquisitionOps, specialCallCoreOps, specialArgsOps,
              pinningLoopOps, DebugPinnerFunctionName]
      · simp [List.length_append, length_acquisitionOps,
              length_mallocgcCoreOps, length_pinningLoopOps]
    · have hfc' : ctx.firstCall = false := by simpa using hfc
      simp only [hdp, hfc', Bool.false_and, Bool.and_true, Bool.false_eq_true,
                 if_false, if_true, List.length_append, List.length_cons,
                 List.length_nil, length_mallocgcCoreOps, length_pinningLoopOps]
      refine ⟨specialCallCoreOps ctx.curCall "runtime.mallocgc"
          [some .pushLen, some .pushNil, some (.pushConst (.boolC false))]
          true ++
          pinningLoopOps (ctx.ops.length + 1 + 9) ctx.curCall (ctx.curCall + 1),
        ctx.ops.length + 1 + 9 + 11 + 1, ?_, ?_, ?_⟩
      · rw [patchJump_append _ ctx.ops .jumpIfAllocStringChecksFail false 0
              ((specialCallCoreOps ctx.curCall "runtime.mallocgc"
                  [some .pushLen, some .pushNil, some (.pushConst (.boolC false))]
                  true ++
                pinningLoopOps (ctx.ops.length + 1 + 9) ctx.curCall
                  (ctx.curCall + 1)) ++ [Op.convertAllocToString])
              (by simp [List.append_assoc]) _]
        simp
      · simp [specialCallCoreOps, specialArgsOps, pinningLoopOps]
      · simp [List.length_append, length_mallocgcCoreOps, length_pinningLoopOps]
  · have hdp' : ctx.flags.hasDebugPinner = false := by simpa using hdp
    simp only [hdp', Bool.true_and, Bool.and_false, Bool.false_eq_true,
               if_false, List.length_append, List.length_cons,
               List.length_nil, length_mallocgcCoreOps]
    refine ⟨specialCallCoreOps ctx.curCall "runtime.mallocgc"
        [some .pushLen, some .pushNil, some (.pushConst (.boolC false))]
        false,
      ctx.ops.length + 1 + 9 + 1, ?_, ?_, ?_⟩
    · rw [patchJump_append _ ctx.ops .jumpIfAllocStringChecksFail false 0
            (specialCallCoreOps ctx.curCall "runtime.mallocgc"
              [some .pushLen, some .pushNil, some (.pushConst (.boolC false))]
              false ++ [Op.convertAllocToString])
            (by simp [hdp', List.append_assoc]) _]
      simp [hdp', length_mallocgcCoreOps]
    · simp [specialCallCoreOps, specialArgsOps]
    · simp [List.length_append, length_mallocgcCoreOps]

/-- C4 (amended): compiling `a && b` with both operands locals yields the
five-instruction program `[PushLocal a; Jump(JumpIfFalse, target 4);
PushLocal b; Binary &&; BoolToConst]` — the short-circuit jump is
back-patched to index 4, the `BoolToConst` instruction — and the program
passes the depth check with terminal depth 1. -/
theorem c4_short_circuit_and (f : Nat) (lk : EvalLookup) (flags : Flags)
    (ha : lk.hasLocal "a" = true) (hb : lk.hasLocal "b" = true) :
    CompileAST (f + 3) lk (.binaryE .land (.ident "a") (.ident "b")) flags =
      .ok progAndAB ∧
    depthCheck progAndAB 1 = .ok [0, 1, 1, 2, 1, 1] := by
  constructor
  · unfold CompileAST
    simp only [compileAST, compileBinary, compileIdent, initialCtx, pushOp,
               patchJump, ha, hb]
    simp [compileDebugUnpin, depthCheck, depthCheckLoop, checkAndSet,
          Op.arity, progAndAB]
  · rfl

/-- Witness for C4 (amended) at the concrete scope `lkC`. -/
theorem c4_short_circuit_and_witness :
    lkC.hasLocal "a" = true ∧ lkC.hasLocal "b" = true ∧
    (CompileAST (2 + 3) lkC (.binaryE .land (.ident "a") (.ident "b"))
        ⟨false, false⟩ = .ok progAndAB ∧
      depthCheck progAndAB 1 = .ok [0, 1, 1, 2, 1, 1]) :=
  ⟨rfl, rfl, c4_short_circuit_and 2 lkC ⟨false, false⟩ rfl rfl⟩

/-- C4 (counterexample): the compiled program's short-circuit jump
targets index 4, not index 5 as the claim states. -/
theorem c4_counterexample :
    CompileAST 5 lkC (.binaryE .land (.ident "a") (.ident "b"))
        ⟨false, false⟩ = .ok progAndAB ∧
    progAndAB.get? 1 = some (.jump .jumpIfFalse false 4) ∧
    progAndAB ≠ [.pushLocal "a" 0, .jump .jumpIfFalse false 5,
                 .pushLocal "b" 0, .binary .land, .boolToConst] :=
  ⟨rfl, rfl, by decide⟩

/-- C8: a string literal compiled on its own (a non-call context) yields
just `PushConst` — no `ConvertAllocToString`; the allocation block
emitted for call arguments contains exactly one `ConvertAllocToString`,
preceded by a `Jump{JumpIfAllocStringChecksFail}` whose back-patched
target is the instruction immediately after the conversion; concretely,
`f("hi")` compiles to a program with exactly one conversion, its guard at
index 7 targeting 18 = 17 + 1, the index after the conversion. -/
theorem c8_string_literal_alloc_elision :
    (∀ (f : Nat) (lk : EvalLookup) (flags : Flags) (s : String),
      CompileAST (f + 1) lk (.basicLit .string s) flags =
        .ok [.pushConst (.fromLit .string s)]) ∧
    (∀ ctx : CompileCtx, ∃ (mid : List Op) (N : Nat),
      (compileAllocLiteralString ctx).ops =
        ctx.ops ++ .jump .jumpIfAllocStringChecksFail false N :: mid ++
          [.convertAllocToString] ∧
      Op.convertAllocToString ∉ mid ∧
      N = ctx.ops.length + 2 + mid.length) ∧
    (CompileAST 20 lkC (.call (.ident "f") [.basicLit .string "\"hi\""])
        ⟨false, false⟩ = .ok progCallStr ∧
      (progCallStr.filter
        (fun op => decide (op = .convertAllocToString))).length = 1 ∧
      progCallStr.get? 7 = some (.jump .jumpIfAllocStringChecksFail false 18) ∧
      progCallStr.get? 17 = some .convertAllocToString) :=
  ⟨fun _ _ _ _ => rfl, compileAllocLiteralString_shape, rfl, by decide, rfl, rfl⟩

/-- `foldl` over `pushOp` appends the mapped list. -/
theorem foldl_pushOp_copyArg (id : Nat) :
    ∀ (l : List Nat) (ctx : CompileCtx),
      l.foldl (fun c i => pushOp c (.callInjectionCopyArg id i)) ctx =
        { ctx with ops := ctx.ops ++ l.map (Op.callInjectionCopyArg id) } := by
  intro l
  induction l with
  | nil => intro ctx; simp
  | cons x l ih =>
    intro ctx
    rw [List.foldl_cons, ih]
    simp [pushOp]

/-- `pushCopyArgsRev` appends the copy opcodes for `ArgNum`
`n-1, ..., 0`, in that order. -/
theorem pushCopyArgsRev_eq (id n : Nat) (ctx : CompileCtx) :
    pushCopyArgsRev id n ctx =
      { ctx with ops := ctx.ops ++
          (List.range n).reverse.map (Op.callInjectionCopyArg id) } := by
  unfold pushCopyArgsRev
  exact foldl_pushOp_copyArg id (List.range n).reverse ctx

/-- C6: with `HAS_DEBUG_PINNER` set, after the (possible) pinner
acquisition, the compiled function expression and the arguments compiled
left to right, `compileFunctionCallNew` emits `Roll{n}`,
`CallInjectionStart{hasFunc:true}`, `Pop`, `CallInjectionSetTarget`, the
`n` `CallInjectionCopyArg` opcodes in reverse argument order (`ArgNum`
`n-1` first, `0` last), `CallInjectionComplete{DoPinning:true}`, and then
the pinning loop. -/
theorem c6_new_call_lowering (lk : EvalLookup) (fuel : Nat)
    (ctx ctxF ctxG : CompileCtx) (fn : Expr) (args : List Expr) (id : Nat)
    (hfn : compileAST lk fuel (compileGetDebugPinner ctx) fn = (ctxF, none))
    (hargs : compileArgsNew lk fuel ctxF 0 args = (ctxG, none)) :
    (compileFunctionCallNew lk (fuel + 1) ctx fn args id).2 = none ∧
    (compileFunctionCallNew lk (fuel + 1) ctx fn args id).1.ops =
      ctxG.ops ++
        .roll args.length :: .callInjectionStart true id :: .pop ::
          .callInjectionSetTarget id ::
          ((List.range args.length).reverse.map (Op.callInjectionCopyArg id) ++
            .callInjectionComplete id true ::
              pinningLoopOps (ctxG.ops.length + args.length + 5) id
                ctxG.curCall) := by
  have hres : compileFunctionCallNew lk (fuel + 1) ctx fn args id =
      (compilePinningLoop id
        (pushOp (pushCopyArgsRev id args.length
          (pushOp (pushOp (pushOp (pushOp ctxG (.roll args.length))
            (.callInjectionStart true id)) .pop)
            (.callInjectionSetTarget id)))
          (.callInjectionComplete id true)), none) := by
    simp only [compileFunctionCallNew, hfn, hargs]
  rw [hres]
  simp only [compilePinningLoop_eq, pushCopyArgsRev_eq, pushOp]
  refine ⟨trivial, ?_⟩
  simp [List.append_assoc, List.length_append]
  congr 1

/-- Witness for C6: `f(a, b)` in scope `lkC`, with the pinner acquired
first (id 0) and call id 1. -/
theorem c6_new_call_lowering_witness :
    compileAST lkC 5 (compileGetDebugPinner (initialCtx ⟨false, true⟩))
        (.ident "f") =
      ({ ops := [.callInjectionStartSpecial 0 "runtime.debugPinner",
                 .callInjectionSetTarget 0, .callInjectionComplete 0 false,
                 .setDebugPinner, .pushLocal "f" 0],
         allowCalls := true, curCall := 1, flags := ⟨false, true⟩,
         firstCall := false }, none) ∧
    compileArgsNew lkC 5
        { ops := [.callInjectionStartSpecial 0 "runtime.debugPinner",
                  .callInjectionSetTarget 0, .callInjectionComplete 0 false,
                  .setDebugPinner, .pushLocal "f" 0],
          allowCalls := true, curCall := 1, flags := ⟨false, true⟩,
          firstCall := false } 0 [.ident "a", .ident "b"] =
      ({ ops := [.callInjectionStartSpecial 0 "runtime.debugPinner",
                 .callInjectionSetTarget 0, .callInjectionComplete 0 false,
                 .setDebugPinner, .pushLocal "f" 0, .pushLocal "a" 0,
                 .pushLocal "b" 0],
         allowCalls := true, curCall := 1, flags := ⟨false, true⟩,
         firstCall := false }, none) ∧
    ((compileFunctionCallNew lkC (5 + 1) (initialCtx ⟨false, true⟩)
        (.ident "f") [.ident "a", .ident "b"] 1).2 = none ∧
     (compileFunctionCallNew lkC (5 + 1) (initialCtx ⟨false, true⟩)
        (.ident "f") [.ident "a", .ident "b"] 1).1.ops =
       [.callInjectionStartSpecial 0 "runtime.debugPinner",
        .callInjectionSetTarget 0, .callInjectionComplete 0 false,
        .setDebugPinner, .pushLocal "f" 0, .pushLocal "a" 0,
        .pushLocal "b" 0] ++
         .roll 2 :: .callInjectionStart true 1 :: .pop ::
           .callInjectionSetTarget 1 ::
           ((List.range 2).reverse.map (Op.callInjectionCopyArg 1) ++
             .callInjectionComplete 1 true :: pinningLoopOps 14 1 1)) :=
  ⟨rfl, rfl, c6_new_call_lowering lkC 5 _ _ _ _ _ 1 rfl rfl⟩

/-! ### Pinner-invariant preservation -/

theorem list_any_set_false (p : Op → Bool) :
    ∀ (l : List Op) (j : Nat) (x y : Op), l.get? j = some y →
      p y = false → p x = false → (l.set j x).any p = l.any p
  | [], _, _, _, h, _, _ => by simp at h
  | a :: l, 0, x, y, h, hy, hx => by
    have : a = y := by simpa using h
    subst this
    simp [hx, hy]
  | a :: l, j + 1, x, y, h, hy, hx => by
    have := list_any_set_false p l j x y (by simpa using h) hy hx
    simp [this]

theorem pinnerInv_congr (a b : CompileCtx) (h1 : a.firstCall = b.firstCall)
    (h2 : a.flags = b.flags) (h3 : a.ops = b.ops) :
    PinnerInv a ↔ PinnerInv b := by
  unfold PinnerInv
  rw [h1, h2, h3]

theorem preserves_refl (ctx : CompileCtx) : Preserves ctx ctx :=
  ⟨fun h => h, rfl, rfl⟩

theorem preservesF_refl (ctx : CompileCtx) : PreservesF ctx ctx :=
  ⟨preserves_refl ctx, fun _ => rfl⟩

theorem preserves_trans {a b c : CompileCtx} (h1 : Preserves a b)
    (h2 : Preserves b c) : Preserves a c :=
  ⟨fun h => h2.1 (h1.1 h), h2.2.1.trans h1.2.1, h2.2.2.trans h1.2.2⟩

theorem preservesF_trans {a b c : CompileCtx} (h1 : PreservesF a b)
    (h2 : PreservesF b c) : PreservesF a c :=
  ⟨preserves_trans h1.1 h2.1, fun h => by
    rw [h2.2 (by rw [h1.1.2.2]; exact h), h1.2 h]⟩

theorem preservesF_of_vacuous {a b : CompileCtx} (h : a.allowCalls = true)
    (hp : Preserves a b) : PreservesF a b :=
  ⟨hp, fun hf => absurd (h ▸ hf) (by simp)⟩

/-- Pushing an opcode that is neither an acquisition start nor an unpin
start. -/
theorem preservesF_pushOp (ctx : CompileCtx) (op : Op)
    (h1 : isAcquisitionStart op = false) (h2 : isUnpinStart op = false) :
    PreservesF ctx (pushOp ctx op) := by
  refine ⟨⟨fun hp => ?_, rfl, rfl⟩, fun _ => rfl⟩
  obtain ⟨hfc, hacq, hunp⟩ := hp
  exact ⟨hfc, by simp [pushOp, List.any_append, hacq, h1],
    by simp [pushOp, List.any_append, hunp, h2]⟩

theorem preservesF_patchJump (ctx : CompileCtx) (j target : Nat) :
    PreservesF ctx (patchJump ctx j target) := by
  cases hj : ctx.ops.get? j with
  | none =>
    have : patchJump ctx j target = ctx := by unfold patchJump; rw [hj]
    rw [this]; exact preservesF_refl ctx
  | some op =>
    cases op with
    | jump c fp t =>
      have : patchJump ctx j target =
          { ctx with ops := ctx.ops.set j (.jump c fp target) } := by
        unfold patchJump; rw [hj]
      rw [this]
      refine ⟨⟨fun hp => ?_, rfl, rfl⟩, fun _ => rfl⟩
      obtain ⟨hfc, hacq, hunp⟩ := hp
      refine ⟨hfc, ?_, ?_⟩
      · show (ctx.ops.set j (Op.jump c fp target)).any isAcquisitionStart = _
        rw [list_any_set_false _ ctx.ops j _ _ hj rfl rfl]; exact hacq
      · show (ctx.ops.set j (Op.jump c fp target)).any isUnpinStart = _
        rw [list_any_set_false _ ctx.ops j _ _ hj rfl rfl]; exact hunp
    | _ =>
      have : patchJump ctx j target = ctx := by
        unfold patchJump; rw [hj]
      rw [this]; exact preservesF_refl ctx

/-- `specialArgsOps` contains no opcode satisfying `p` when the argument
operands do not and `CallInjectionCopyArg` does not. -/
theorem any_specialArgsOps (p : Op → Bool)
    (hcopy : ∀ id i, p (.callInjectionCopyArg id i) = false) :
    ∀ (args : List (Option Op)) (id i : Nat),
      (∀ op, some op ∈ args → p op = false) →
      (specialArgsOps id args i).any p = false
  | [], id, i, _ => rfl
  | some op :: rest, id, i, h => by
    have hop : p op = false := h op (by simp)
    have := any_specialArgsOps p hcopy rest id (i + 1)
      (fun o ho => h o (by simp [ho]))
    simp [specialArgsOps, hop, hcopy, this]
  | none :: rest, id, i, h => by
    have := any_specialArgsOps p hcopy rest id (i + 1)
      (fun o ho => h o (by simp [ho]))
    simp [specialArgsOps, hcopy, this]

theorem any_specialCallCoreOps (p : Op → Bool) (id : Nat) (fnname : String)
    (args : List (Option Op)) (eff : Bool)
    (h1 : p (.callInjectionStartSpecial id fnname) = false)
    (h2 : p (.callInjectionSetTarget id) = false)
    (h3 : p (.callInjectionComplete id eff) = false)
    (hcopy : ∀ id i, p (.callInjectionCopyArg id i) = false)
    (hargs : ∀ op, some op ∈ args → p op = false) :
    (specialCallCoreOps id fnname args eff).any p = false := by
  simp [specialCallCoreOps, h1, h2, h3, List.any_append,
        any_specialArgsOps p hcopy args id 0 hargs]

theorem any_acquisitionOps_acq (id : Nat) :
    (acquisitionOps id).any isAcquisitionStart = true := rfl

theorem any_acquisitionOps_unpin (id : Nat) :
    (acquisitionOps id).any isUnpinStart = false := rfl

theorem any_pinningLoopOps_acq (L id id2 : Nat) :
    (pinningLoopOps L id id2).any isAcquisitionStart = false := rfl

theorem any_pinningLoopOps_unpin (L id id2 : Nat) :
    (pinningLoopOps L id id2).any isUnpinStart = false := rfl

/-- A special call to anything other than `runtime.debugPinner` and
`runtime.(*Pinner).Unpin`, with acquisition- and unpin-free argument
operands, preserves the pinner invariant. -/
theorem preserves_specialCallCore (fnname : String) (args : List (Option Op))
    (eff : Bool) (ctx : CompileCtx)
    (hfn1 : (fnname == DebugPinnerFunctionName) = false)
    (hfn2 : (fnname == "runtime.(*Pinner).Unpin") = false)
    (hargs : ∀ op, some op ∈ args →
      isAcquisitionStart op = false ∧ isUnpinStart op = false) :
    Preserves ctx (compileSpecialCallCore fnname args eff ctx) := by
  rw [compileSpecialCallCore_eq]
  refine ⟨fun hp => ?_, rfl, rfl⟩
  obtain ⟨hfc, hacq, hunp⟩ := hp
  refine ⟨hfc, ?_, ?_⟩
  · show (ctx.ops ++ _).any isAcquisitionStart = _
    rw [List.any_append,
        any_specialCallCoreOps isAcquisitionStart ctx.curCall fnname args eff
          hfn1 rfl rfl (fun _ _ => rfl) (fun op h => (hargs op h).1),
        Bool.or_false]
    exact hacq
  · show (ctx.ops ++ _).any isUnpinStart = _
    rw [List.any_append,
        any_specialCallCoreOps isUnpinStart ctx.curCall fnname args eff
          hfn2 rfl rfl (fun _ _ => rfl) (fun op h => (hargs op h).2),
        Bool.or_false]
    exact hunp

/-- The pinner acquisition preserves the invariant: it only fires on the
first call under `HasDebugPinner`, and it flips `firstCall` in step with
the acquisition block it appends. -/
theorem preserves_getDebugPinner (ctx : CompileCtx) :
    Preserves ctx (compileGetDebugPinner ctx) := by
  rw [compileGetDebugPinner_eq]
  split
  · rename_i h
    obtain ⟨hf, hd⟩ := Bool.and_eq_true_iff.mp h
    refine ⟨fun hp => ?_, rfl, rfl⟩
    obtain ⟨hfc, hacq, hunp⟩ := hp
    refine ⟨fun _ => hd, ?_, ?_⟩
    · show (ctx.ops ++ _).any isAcquisitionStart = !false
      rw [List.any_append, any_acquisitionOps_acq]
      simp
    · show (ctx.ops ++ _).any isUnpinStart = false
      rw [List.any_append, any_acquisitionOps_unpin, Bool.or_false]
      exact hunp
  · exact preserves_refl ctx

theorem preserves_pinningLoop (id : Nat) (ctx : CompileCtx) :
    Preserves ctx (compilePinningLoop id ctx) := by
  rw [compilePinningLoop_eq]
  refine ⟨fun hp => ?_, rfl, rfl⟩
  obtain ⟨hfc, hacq, hunp⟩ := hp
  refine ⟨hfc, ?_, ?_⟩
  · show (ctx.ops ++ _).any isAcquisitionStart = _
    rw [List.any_append, any_pinningLoopOps_acq, Bool.or_false]
    exact hacq
  · show (ctx.ops ++ _).any isUnpinStart = _
    rw [List.any_append, any_pinningLoopOps_unpin, Bool.or_false]
    exact hunp

theorem preserves_pushOp (ctx : CompileCtx) (op : Op)
    (h1 : isAcquisitionStart op = false) (h2 : isUnpinStart op = false) :
    Preserves ctx (pushOp ctx op) :=
  (preservesF_pushOp ctx op h1 h2).1

theorem preserves_patchJump (ctx : CompileCtx) (j target : Nat) :
    Preserves ctx (patchJump ctx j target) :=
  (preservesF_patchJump ctx j target).1

/-- `compileSpecialCall` to a function other than the pinner acquisition
and release targets preserves the invariant. -/
theorem preserves_specialCall (fnname : String) (args : List (Option Op))
    (doPinning : Bool) (ctx : CompileCtx)
    (hfn1 : (fnname == DebugPinnerFunctionName) = false)
    (hfn2 : (fnname == "runtime.(*Pinner).Unpin") = false)
    (hargs : ∀ op, some op ∈ args →
      isAcquisitionStart op = false ∧ isUnpinStart op = false) :
    Preserves ctx (compileSpecialCall fnname args doPinning ctx) := by
  unfold compileSpecialCall
  simp only []
  cases doPinning with
  | false =>
    simp only [Bool.false_eq_true, if_false, Bool.false_and]
    exact preserves_specialCallCore fnname args _ _ hfn1 hfn2 hargs
  | true =>
    simp only [if_true, Bool.true_and]
    have h2 : Preserves ctx
        (compileSpecialCallCore fnname args
          (compileGetDebugPinner ctx).flags.hasDebugPinner
          (compileGetDebugPinner ctx)) :=
      preserves_trans (preserves_getDebugPinner ctx)
        (preserves_specialCallCore fnname args _ _ hfn1 hfn2 hargs)
    split
    · exact preserves_trans h2 (preserves_pinningLoop _ _)
    · exact h2

theorem preserves_compileAllocLiteralString (ctx : CompileCtx) :
    Preserves ctx (compileAllocLiteralString ctx) := by
  unfold compileAllocLiteralString
  refine preserves_trans (preserves_trans (preserves_trans
    (preserves_pushOp ctx (.jump .jumpIfAllocStringChecksFail false 0) rfl rfl)
    (preserves_specialCall "runtime.mallocgc" _ true _ rfl rfl ?_))
    (preserves_pushOp _ .convertAllocToString rfl rfl))
    (preserves_patchJump _ _ _)
  intro op h
  simp only [List.mem_cons, List.not_mem_nil, or_false] at h
  rcases h with h | h | h <;> { cases (Option.some.injEq _ _).mp h; exact ⟨rfl, rfl⟩ }

theorem preserves_pushCopyArgsRev (id n : Nat) (ctx : CompileCtx) :
    Preserves ctx (pushCopyArgsRev id n ctx) := by
  rw [pushCopyArgsRev_eq]
  refine ⟨fun hp => ?_, rfl, rfl⟩
  obtain ⟨hfc, hacq, hunp⟩ := hp
  have hmap : ∀ (p : Op → Bool), (∀ i2, p (.callInjectionCopyArg id i2) = false) →
      ((List.range n).reverse.map (Op.callInjectionCopyArg id)).any p = false := by
    intro p hp2
    simp [List.any_map, Function.comp, hp2]
  refine ⟨hfc, ?_, ?_⟩
  · show (ctx.ops ++ _).any isAcquisitionStart = _
    rw [List.any_append, hmap isAcquisitionStart (fun _ => rfl), Bool.or_false]
    exact hacq
  · show (ctx.ops ++ _).any isUnpinStart = _
    rw [List.any_append, hmap isUnpinStart (fun _ => rfl), Bool.or_false]
    exact hunp

theorem preservesF_compileIdent (lk : EvalLookup) (ctx : CompileCtx)
    (name : String) : PreservesF ctx (compileIdent lk ctx name).1 := by
  unfold compileIdent
  repeat' split
  all_goals first
    | exact preservesF_refl _
    | exact preservesF_pushOp _ _ rfl rfl

/-- `compileDebugUnpin` appends exactly the release block (consuming one
call id) when a pinner was acquired, and does nothing otherwise. -/
theorem compileDebugUnpin_eq (ctx : CompileCtx) :
    compileDebugUnpin ctx =
      if !ctx.firstCall && ctx.flags.hasDebugPinner then
        { ctx with curCall := ctx.curCall + 1,
                   ops := ctx.ops ++ releaseOps ctx.curCall }
      else ctx := by
  unfold compileDebugUnpin compileSpecialCall
  split
  · simp [compileSpecialCallCore_eq, pushOp, releaseOps, List.append_assoc]
  · rfl

theorem preservesF_result {ctx c1 : CompileCtx} {e : Option CErr}
    {r : CompileCtx × Option CErr} (he : r = (c1, e))
    (h : PreservesF ctx r.1) : PreservesF ctx c1 := by
  rw [he] at h; exact h

theorem preserves_result {ctx c1 : CompileCtx} {e : Option CErr}
    {r : CompileCtx × Option CErr} (he : r = (c1, e))
    (h : Preserves ctx r.1) : Preserves ctx c1 := by
  rw [he] at h; exact h

theorem preservesF_result3 {ctx c1 : CompileCtx} {s : Option Nat}
    {e : Option CErr} {r : CompileCtx × Option Nat × Option CErr}
    (he : r = (c1, s, e)) (h : PreservesF ctx r.1) : PreservesF ctx c1 := by
  rw [he] at h; exact h

theorem preserves_curCall (ctx : CompileCtx) (n : Nat) :
    Preserves ctx { ctx with curCall := n } :=
  ⟨fun h => h, rfl, rfl⟩

/-- All seventeen functions of the compilation block preserve the pinner
invariant, the flags and `allowCalls`; the expression-level functions
additionally cannot touch `firstCall` while calls are disallowed. -/
theorem compile_preserves : ∀ (fuel : Nat),
    (∀ lk ctx t, PreservesF ctx (compileAST lk fuel ctx t).1) ∧
    (∀ lk ctx fn args,
      PreservesF ctx (compileTypeCastOrFuncCall lk fuel ctx fn args).1) ∧
    (∀ lk ctx fn arg amb,
      PreservesF ctx (compileTypeCast lk fuel ctx fn arg amb).1) ∧
    (∀ lk ctx fn args,
      PreservesF ctx (compileFunctionCall lk fuel ctx fn args).1) ∧
    (∀ lk ctx b args,
      PreservesF ctx (compileBuiltinCall lk fuel ctx b args).1) ∧
    (∀ lk ctx args, PreservesF ctx (compileASTList lk fuel ctx args).1) ∧
    (∀ lk ctx fn args id,
      Preserves ctx (compileFunctionCallOld lk fuel ctx fn args id).1) ∧
    (∀ lk ctx fn args id hf,
      Preserves ctx (compileFunctionCallOldRest lk fuel ctx fn args id hf).1) ∧
    (∀ lk ctx id i args,
      Preserves ctx (compileArgsOld lk fuel ctx id i args).1) ∧
    (∀ lk ctx fn args id,
      Preserves ctx (compileFunctionCallNew lk fuel ctx fn args id).1) ∧
    (∀ lk ctx i args, Preserves ctx (compileArgsNew lk fuel ctx i args).1) ∧
    (∀ lk ctx x op, isAcquisitionStart op = false → isUnpinStart op = false →
      PreservesF ctx (compileUnary lk fuel ctx x op).1) ∧
    (∀ lk ctx x ty, PreservesF ctx (compileTypeAssert lk fuel ctx x ty).1) ∧
    (∀ lk ctx a b sop op,
      isAcquisitionStart op = false → isUnpinStart op = false →
      PreservesF ctx (compileBinary lk fuel ctx a b sop op).1) ∧
    (∀ lk ctx x lo hi,
      PreservesF ctx (compileReslice lk fuel ctx x lo hi).1) ∧
    (∀ lk ctx lo hh,
      PreservesF ctx (compileResliceLow lk fuel ctx lo hh).1) ∧
    (∀ lk ctx fields i elts,
      Preserves ctx (compileCompositeElts lk fuel ctx fields i elts).1) := by
  intro fuel
  induction fuel with
  | zero =>
    exact ⟨fun lk ctx t => preservesF_refl ctx,
      fun lk ctx fn args => preservesF_refl ctx,
      fun lk ctx fn arg amb => preservesF_refl ctx,
      fun lk ctx fn args => preservesF_refl ctx,
      fun lk ctx b args => preservesF_refl ctx,
      fun lk ctx args => preservesF_refl ctx,
      fun lk ctx fn args id => preserves_refl ctx,
      fun lk ctx fn args id hf => preserves_refl ctx,
      fun lk ctx id i args => preserves_refl ctx,
      fun lk ctx fn args id => preserves_refl ctx,
      fun lk ctx i args => preserves_refl ctx,
      fun lk ctx x op _ _ => preservesF_refl ctx,
      fun lk ctx x ty => preservesF_refl ctx,
      fun lk ctx a b sop op _ _ => preservesF_refl ctx,
      fun lk ctx x lo hi => preservesF_refl ctx,
      fun lk ctx lo hh => preservesF_refl ctx,
      fun lk ctx fields i elts => preserves_refl ctx⟩
  | succ fuel ih =>
    obtain ⟨ihAST, ihTCFC, ihTC, ihFC, ihBC, ihLIST, ihOLD, ihOLDR, ihAO,
      ihNEW, ihAN, ihUN, ihTA, ihBIN, ihRS, ihRSL, ihCE⟩ := ih
    refine ⟨?_, ?_, ?_, ?_, ?_, ?_, ?_, ?_, ?_, ?_, ?_, ?_, ?_, ?_, ?_, ?_, ?_⟩
    · -- compileAST
      intro lk ctx t
      cases t
      case call fn args =>
        simp only [compileAST]
        exact ihTCFC lk ctx fn args
      case ident name =>
        simp only [compileAST]
        exact preservesF_compileIdent lk ctx name
      case paren x =>
        simp only [compileAST]
        exact ihAST lk ctx x
      case typeAssertE x ty =>
        simp only [compileAST]
        exact ihTA lk ctx x ty
      case star x =>
        simp only [compileAST]
        exact ihUN lk ctx x .pointerDeref rfl rfl
      case unaryE op x =>
        simp only [compileAST]
        cases op
        all_goals first
          | exact ihUN lk ctx x .addrOf rfl rfl
          | exact ihUN lk ctx x (.unary _) rfl rfl
      case indexE x i =>
        simp only [compileAST]
        rcases hb : compileBinary lk fuel ctx x i none .index with ⟨c1, s1, e1⟩
        exact preservesF_result3 hb (ihBIN lk ctx x i none .index rfl rfl)
      case sliceE x lo hi s3 =>
        simp only [compileAST]
        split
        · exact preservesF_refl ctx
        · exact ihRS lk ctx x lo hi
      case basicLit kind v =>
        simp only [compileAST]
        exact preservesF_pushOp ctx (.pushConst (.fromLit kind v)) rfl rfl
      case binaryE op x y =>
        simp only [compileAST]
        cases op
        all_goals dsimp only
        all_goals try exact preservesF_refl ctx
        all_goals (
          split
          · rename_i c1 s1 e1 heq
            exact preservesF_result3 heq (ihBIN lk ctx x y _ _ rfl rfl)
          · rename_i c1 s1 heq
            have hp1 : PreservesF ctx c1 :=
              preservesF_result3 heq (ihBIN lk ctx x y _ _ rfl rfl)
            cases s1 with
            | none => exact hp1
            | some j =>
              exact preservesF_trans (preservesF_trans hp1
                (preservesF_patchJump c1 j _))
                (preservesF_pushOp _ .boolToConst rfl rfl))
      case selector x sel =>
        simp only [compileAST]
        cases x
        all_goals dsimp only
        all_goals try exact ihUN lk ctx _ (.select sel) rfl rfl
        case ident xn =>
          repeat' split
          · exact preservesF_pushOp ctx .pushCurg rfl rfl
          · exact preservesF_pushOp ctx .pushFrameoff rfl rfl
          · exact preservesF_pushOp ctx .pushThreadID rfl rfl
          · exact preservesF_trans
              (preservesF_pushOp ctx (.pushLocal xn 0) rfl rfl)
              (preservesF_pushOp _ (.select sel) rfl rfl)
          · exact preservesF_pushOp ctx (.pushPackageVar xn sel) rfl rfl
          · exact ihUN lk ctx (.ident xn) (.select sel) rfl rfl
        case call cfn cargs =>
          repeat' split
          all_goals first
            | exact preservesF_refl ctx
            | exact ihUN lk ctx _ (.select sel) rfl rfl
            | exact preservesF_pushOp ctx (.pushLocal sel _) rfl rfl
        case basicLit bk bv =>
          repeat' split
          all_goals first
            | exact preservesF_refl ctx
            | exact ihUN lk ctx _ (.select sel) rfl rfl
            | exact preservesF_pushOp ctx (.pushPackageVar _ sel) rfl rfl
      case compositeLit typ elts =>
        simp only [compileAST]
        split
        · exact preservesF_refl ctx
        · split
          · exact preservesF_refl ctx
          · rename_i hdp dtyp heq
            split
            all_goals try exact preservesF_refl ctx
            rename_i fields heq2
            split
            · exact preservesF_refl ctx
            · rename_i hallow
              have ha : ctx.allowCalls = true := by simpa using hallow
              apply preservesF_of_vacuous ha
              refine preserves_trans (preserves_trans (preserves_trans
                (preserves_specialCall "runtime.mallocgc" _ true ctx rfl rfl ?_)
                (preserves_pushOp _ (.typeCast (.ptrT dtyp)) rfl rfl))
                (preserves_pushOp _ .pointerDeref rfl rfl))
                (ihCE lk _ fields 0 elts)
              intro op h
              simp only [List.mem_cons, List.not_mem_nil, or_false] at h
              rcases h with h | h | h <;>
                { cases (Option.some.injEq _ _).mp h; exact ⟨rfl, rfl⟩ }
      all_goals simp only [compileAST]
      all_goals exact preservesF_refl ctx
    · -- compileTypeCastOrFuncCall
      intro lk ctx fn args
      cases args with
      | nil => simp only [compileTypeCastOrFuncCall]; exact ihFC lk ctx fn []
      | cons a rest =>
        cases rest with
        | cons b rest2 =>
          simp only [compileTypeCastOrFuncCall]
          exact ihFC lk ctx fn _
        | nil =>
          simp only [compileTypeCastOrFuncCall]
          cases hsp : stripParenStars fn
          all_goals try exact ihTC lk ctx fn a none
          all_goals try exact ihFC lk ctx fn [a]
          all_goals dsimp only
          case ident n =>
            split
            · exact ihFC lk ctx fn [a]
            · split
              · exact ihFC lk ctx fn [a]
              · exact ihTC lk ctx fn a _
          case selector sx ssel =>
            cases sx
            all_goals dsimp only
            all_goals try exact ihFC lk ctx fn [a]
            split
            · exact ihTC lk ctx fn a none
            · split
              · exact ihFC lk ctx fn [a]
              · exact ihTC lk ctx fn a _
          case indexE ix iidx =>
            cases ix
            all_goals dsimp only
            all_goals try exact ihFC lk ctx fn [a]
            all_goals (
              split
              · rename_i c1 heq
                exact preservesF_result heq (ihTC lk ctx fn a none)
              · rename_i c1 e1 heq
                split
                · exact preservesF_result heq (ihTC lk ctx fn a none)
                · exact preservesF_trans
                    (preservesF_result heq (ihTC lk ctx fn a none))
                    (ihFC lk c1 fn [a]))
    · -- compileTypeCast
      intro lk ctx fn arg amb
      simp only [compileTypeCast]
      rcases ha : compileAST lk fuel ctx arg with ⟨ctx1, err⟩
      cases err with
      | some e => exact preservesF_result ha (ihAST lk ctx arg)
      | none =>
        have hp := preservesF_result ha (ihAST lk ctx arg)
        simp only []
        split
        · refine preservesF_trans hp (preservesF_pushOp _ _ ?_ ?_) <;> rfl
        · split
          · refine preservesF_trans hp (preservesF_pushOp _ _ ?_ ?_) <;> rfl
          · split
            · refine preservesF_trans hp (preservesF_pushOp _ _ ?_ ?_) <;> rfl
            · split
              · exact hp
              · exact hp
    · -- compileFunctionCall
      intro lk ctx fn args
      simp only [compileFunctionCall]
      split
      · rename_i n
        split
        · exact ihBC lk ctx n args
        · split
          · exact preservesF_refl ctx
          · rename_i hbuiltin hallow
            have ha : ctx.allowCalls = true := by simpa using hallow
            apply preservesF_of_vacuous ha
            split
            · exact preserves_trans (preserves_curCall ctx _)
                (ihNEW lk _ _ args _)
            · exact preserves_trans (preserves_curCall ctx _)
                (ihOLD lk _ _ args _)
      · split
        · exact preservesF_refl ctx
        · rename_i hna hallow
          have ha : ctx.allowCalls = true := by simpa using hallow
          apply preservesF_of_vacuous ha
          split
          · exact preserves_trans (preserves_curCall ctx _)
              (ihNEW lk _ fn args _)
          · exact preserves_trans (preserves_curCall ctx _)
              (ihOLD lk _ fn args _)
    · -- compileBuiltinCall
      intro lk ctx b args
      simp only [compileBuiltinCall]
      rcases hl : compileASTList lk fuel ctx args with ⟨ctx1, err⟩
      cases err with
      | some e => exact preservesF_result hl (ihLIST lk ctx args)
      | none =>
        exact preservesF_trans (preservesF_result hl (ihLIST lk ctx args))
          (preservesF_pushOp _ (.builtinCall b args.length) rfl rfl)
    · -- compileASTList
      intro lk ctx args
      cases args with
      | nil => exact preservesF_refl ctx
      | cons a rest =>
        simp only [compileASTList]
        rcases ha : compileAST lk fuel ctx a with ⟨ctx1, err⟩
        cases err with
        | some e => exact preservesF_result ha (ihAST lk ctx a)
        | none =>
          exact preservesF_trans (preservesF_result ha (ihAST lk ctx a))
            (ihLIST lk ctx1 rest)
    · -- compileFunctionCallOld
      intro lk ctx fn args id
      simp only [compileFunctionCallOld]
      split
      · rename_i c1 e1 ha
        have hF := preservesF_result ha (ihAST lk { ctx with allowCalls := false } fn)
        have hFl : c1.flags = ctx.flags := hF.1.2.1
        have hFC : c1.firstCall = ctx.firstCall := hF.2 rfl
        have hpre : Preserves ctx
            { c1 with allowCalls := ctx.allowCalls, ops := ctx.ops } :=
          ⟨fun hp =>
            (pinnerInv_congr
              { c1 with allowCalls := ctx.allowCalls, ops := ctx.ops }
              ctx hFC hFl rfl).mpr hp, hFl, rfl⟩
        split
        · exact hpre
        · exact preserves_trans hpre (ihOLDR lk _ fn args id false)
      · rename_i c1 ha
        have hF := preservesF_result ha (ihAST lk { ctx with allowCalls := false } fn)
        have hFl : c1.flags = ctx.flags := hF.1.2.1
        have hpre : Preserves ctx { c1 with allowCalls := ctx.allowCalls } :=
          ⟨fun hp => hF.1.1 hp, hFl, rfl⟩
        exact preserves_trans hpre (ihOLDR lk _ fn args id true)
    · -- compileFunctionCallOldRest
      intro lk ctx fn args id hf
      cases hf with
      | true =>
        simp only [compileFunctionCallOldRest, if_true]
        have hpre : Preserves ctx
            (pushOp (pushOp (pushOp ctx (.callInjectionStart true id))
              (.jump .jumpIfFalse true 0)) .pop) :=
          preserves_trans (preserves_trans
            (preserves_pushOp ctx (.callInjectionStart true id) rfl rfl)
            (preserves_pushOp _ (.jump .jumpIfFalse true 0) rfl rfl))
            (preserves_pushOp _ .pop rfl rfl)
        split
        · rename_i c1 e1 hfn
          exact preserves_trans hpre (preserves_result hfn (ihAST lk _ fn).1)
        · rename_i c1 hfn
          have hp1 := preserves_trans hpre (preserves_result hfn (ihAST lk _ fn).1)
          have hp2 := preserves_trans (preserves_trans hp1
            (preserves_patchJump c1
              (pushOp ctx (.callInjectionStart true id)).ops.length
              c1.ops.length))
            (preserves_pushOp _ (.callInjectionSetTarget id) rfl rfl)
          split
          · rename_i c2 e2 hargs
            exact preserves_trans hp2 (preserves_result hargs (ihAO lk _ id 0 args))
          · rename_i c2 hargs
            exact preserves_trans (preserves_trans hp2
              (preserves_result hargs (ihAO lk _ id 0 args)))
              (preserves_pushOp c2 (.callInjectionComplete id false) rfl rfl)
      | false =>
        simp only [compileFunctionCallOldRest, Bool.false_eq_true, if_false]
        have hpre : Preserves ctx
            (pushOp (pushOp ctx (.callInjectionStart false id)) .pop) :=
          preserves_trans
            (preserves_pushOp ctx (.callInjectionStart false id) rfl rfl)
            (preserves_pushOp _ .pop rfl rfl)
        split
        · rename_i c1 e1 hfn
          exact preserves_trans hpre (preserves_result hfn (ihAST lk _ fn).1)
        · rename_i c1 hfn
          have hp1 := preserves_trans hpre (preserves_result hfn (ihAST lk _ fn).1)
          have hp2 := preserves_trans hp1
            (preserves_pushOp c1 (.callInjectionSetTarget id) rfl rfl)
          split
          · rename_i c2 e2 hargs
            exact preserves_trans hp2 (preserves_result hargs (ihAO lk _ id 0 args))
          · rename_i c2 hargs
            exact preserves_trans (preserves_trans hp2
              (preserves_result hargs (ihAO lk _ id 0 args)))
              (preserves_pushOp c2 (.callInjectionComplete id false) rfl rfl)
    · -- compileArgsOld
      intro lk ctx id i args
      cases args with
      | nil => exact preserves_refl ctx
      | cons arg rest =>
        simp only [compileArgsOld]
        rcases ha : compileAST lk fuel ctx arg with ⟨ctx1, err⟩
        cases err with
        | some e => exact preserves_result ha (ihAST lk ctx arg).1
        | none =>
          have hp1 : Preserves ctx
              (if isStringLiteral arg then compileAllocLiteralString ctx1
               else ctx1) := by
            split
            · exact preserves_trans (preserves_result ha (ihAST lk ctx arg).1)
                (preserves_compileAllocLiteralString ctx1)
            · exact preserves_result ha (ihAST lk ctx arg).1
          exact preserves_trans
            (preserves_trans hp1
              (preserves_pushOp _ (.callInjectionCopyArg id i) rfl rfl))
            (ihAO lk _ id (i + 1) rest)
    · -- compileFunctionCallNew
      intro lk ctx fn args id
      simp only [compileFunctionCallNew]
      have h0 := preserves_getDebugPinner ctx
      split
      · rename_i c1 e1 hfn
        exact preserves_trans h0 (preserves_result hfn (ihAST lk _ fn).1)
      · rename_i c1 hfn
        have hp1 := preserves_trans h0 (preserves_result hfn (ihAST lk _ fn).1)
        split
        · rename_i c2 e2 hargs
          exact preserves_trans hp1 (preserves_result hargs (ihAN lk c1 0 args))
        · rename_i c2 hargs
          have hp2 := preserves_trans hp1
            (preserves_result hargs (ihAN lk c1 0 args))
          exact preserves_trans (preserves_trans (preserves_trans
            (preserves_trans (preserves_trans (preserves_trans
              (preserves_trans hp2
                (preserves_pushOp _ (.roll args.length) rfl rfl))
              (preserves_pushOp _ (.callInjectionStart true id) rfl rfl))
              (preserves_pushOp _ .pop rfl rfl))
              (preserves_pushOp _ (.callInjectionSetTarget id) rfl rfl))
              (preserves_pushCopyArgsRev id args.length _))
              (preserves_pushOp _ (.callInjectionComplete id true) rfl rfl))
            (preserves_pinningLoop id _)
    · -- compileArgsNew
      intro lk ctx i args
      cases args with
      | nil => exact preserves_refl ctx
      | cons arg rest =>
        simp only [compileArgsNew]
        rcases ha : compileAST lk fuel ctx arg with ⟨ctx1, err⟩
        simp only []
        have hp1 : Preserves ctx
            (if isStringLiteral arg then compileAllocLiteralString ctx1
             else ctx1) := by
          split
          · exact preserves_trans (preserves_result ha (ihAST lk ctx arg).1)
              (preserves_compileAllocLiteralString ctx1)
          · exact preserves_result ha (ihAST lk ctx arg).1
        cases err with
        | some e => exact hp1
        | none => exact preserves_trans hp1 (ihAN lk _ (i + 1) rest)
    · -- compileUnary
      intro lk ctx x op h1 h2
      simp only [compileUnary]
      rcases hx : compileAST lk fuel ctx x with ⟨ctx1, err⟩
      cases err with
      | some e => exact preservesF_result hx (ihAST lk ctx x)
      | none =>
        exact preservesF_trans (preservesF_result hx (ihAST lk ctx x))
          (preservesF_pushOp ctx1 op h1 h2)
    · -- compileTypeAssert
      intro lk ctx x ty
      simp only [compileTypeAssert]
      split
      · rename_i c1 e1 hx
        exact preservesF_result hx (ihAST lk ctx x)
      · rename_i c1 hx
        have hp := preservesF_result hx (ihAST lk ctx x)
        repeat' split
        all_goals first
          | exact hp
          | (refine preservesF_trans hp (preservesF_pushOp _ _ ?_ ?_) <;> rfl)
    · -- compileBinary
      intro lk ctx a b sop op h1 h2
      cases sop with
      | none =>
        simp only [compileBinary]
        split
        · rename_i c1 e1 ha
          exact preservesF_result ha (ihAST lk ctx a)
        · rename_i c1 ha
          have hp1 := preservesF_result ha (ihAST lk ctx a)
          split
          · rename_i c2 e2 hb
            exact preservesF_trans hp1 (preservesF_result hb (ihAST lk c1 b))
          · rename_i c2 hb
            exact preservesF_trans
              (preservesF_trans hp1 (preservesF_result hb (ihAST lk c1 b)))
              (preservesF_pushOp c2 op h1 h2)
      | some cond =>
        simp only [compileBinary]
        split
        · rename_i c1 e1 ha
          exact preservesF_result ha (ihAST lk ctx a)
        · rename_i c1 ha
          have hp1 := preservesF_result ha (ihAST lk ctx a)
          have hp2 := preservesF_trans hp1
            (preservesF_pushOp c1 (.jump cond false 0) rfl rfl)
          split
          · rename_i c2 e2 hb
            exact preservesF_trans hp2 (preservesF_result hb (ihAST lk _ b))
          · rename_i c2 hb
            exact preservesF_trans
              (preservesF_trans hp2 (preservesF_result hb (ihAST lk _ b)))
              (preservesF_pushOp c2 op h1 h2)
    · -- compileReslice
      intro lk ctx x lo hi
      cases hi with
      | none =>
        simp only [compileReslice]
        split
        · rename_i c1 e1 hx
          exact preservesF_result hx (ihAST lk ctx x)
        · rename_i c1 hx
          exact preservesF_trans (preservesF_result hx (ihAST lk ctx x))
            (ihRSL lk c1 lo false)
      | some h =>
        simp only [compileReslice]
        split
        · rename_i c1 e1 hx
          exact preservesF_result hx (ihAST lk ctx x)
        · rename_i c1 hx
          have hp1 := preservesF_result hx (ihAST lk ctx x)
          split
          · rename_i c2 e2 hh
            exact preservesF_trans hp1 (preservesF_result hh (ihAST lk c1 h))
          · rename_i c2 hh
            exact preservesF_trans
              (preservesF_trans hp1 (preservesF_result hh (ihAST lk c1 h)))
              (ihRSL lk c2 lo true)
    · -- compileResliceLow
      intro lk ctx lo hh
      cases lo with
      | none =>
        simp only [compileResliceLow]
        exact preservesF_trans
          (preservesF_pushOp ctx (.pushConst (.intC 0)) rfl rfl)
          (preservesF_pushOp _ (.reslice hh) rfl rfl)
      | some l =>
        simp only [compileResliceLow]
        rcases hl : compileAST lk fuel ctx l with ⟨ctx1, err⟩
        cases err with
        | some e => exact preservesF_result hl (ihAST lk ctx l)
        | none =>
          exact preservesF_trans (preservesF_result hl (ihAST lk ctx l))
            (preservesF_pushOp _ (.reslice hh) rfl rfl)
    · -- compileCompositeElts
      intro lk ctx fields i elts
      cases elts with
      | nil => exact preserves_refl ctx
      | cons e rest =>
        rcases e with ⟨key, value⟩
        simp only [compileCompositeElts]
        refine preserves_trans (preserves_trans (preserves_trans
          (preserves_trans (ihAST lk ctx value).1
            (preserves_pushOp _ .dup rfl rfl))
          (preserves_pushOp _ (.select _) rfl rfl))
          (preserves_pushOp _ .setValue rfl rfl))
          (ihCE lk _ fields (i + 1) rest)

theorem any_releaseOps_unpin (id : Nat) :
    (releaseOps id).any isUnpinStart = true := rfl

/-- A program with no `Unpin` special-call start cannot end in the
release block. -/
theorem no_release_suffix {prog : List Op}
    (h : prog.any isUnpinStart = false) :
    ¬∃ pre id, prog = pre ++ releaseOps id := by
  rintro ⟨pre, id, rfl⟩
  rw [List.any_append, any_releaseOps_unpin] at h
  simp at h

theorem pinnerInv_initial (flags : Flags) : PinnerInv (initialCtx flags) :=
  ⟨fun h => (nomatch h), rfl, rfl⟩

/-- The pinner invariant holds after a successful `compileAST` run from
the fresh context. -/
theorem pinnerInv_after_compileAST (lk : EvalLookup) (fuel : Nat)
    (flags : Flags) (t : Expr) (ctx1 : CompileCtx) (e : Option CErr)
    (heq : compileAST lk fuel (initialCtx flags) t = (ctx1, e)) :
    PinnerInv ctx1 := by
  have hp := (compile_preserves fuel).1 lk (initialCtx flags) t
  rw [heq] at hp
  exact hp.1.1 (pinnerInv_initial flags)

/-- C5 (amended): `CompileAST`-produced programs end in the pinner
release block exactly when a pinner acquisition was emitted, but
`CompileSet` never appends the release: its programs contain no
`runtime.(*Pinner).Unpin` special call at all, even when they do emit
an acquisition. -/
theorem c5_release_iff_acquisition :
    (∀ (fuel : Nat) (lk : EvalLookup) (t : Expr) (flags : Flags)
      (prog : List Op), CompileAST fuel lk t flags = .ok prog →
      ((∃ pre id, prog = pre ++ releaseOps id) ↔
        prog.any isAcquisitionStart = true)) ∧
    (∀ (fuel : Nat) (lk : EvalLookup) (lhe rhe : Expr) (flags : Flags)
      (prog : List Op), CompileSet fuel lk lhe rhe flags = .ok prog →
      prog.any isUnpinStart = false ∧
        ¬∃ pre id, prog = pre ++ releaseOps id) := by
  constructor
  · intro fuel lk t flags prog h
    unfold CompileAST at h
    split at h
    · simp at h
    · rename_i ctx1 heq
      simp only [] at h
      split at h
      · simp at h
      · injection h with h2
        subst h2
        have hinv := pinnerInv_after_compileAST lk fuel flags t ctx1 none heq
        rw [compileDebugUnpin_eq]
        cases hfc : ctx1.firstCall with
        | false =>
          have hdp : ctx1.flags.hasDebugPinner = true := hinv.1 hfc
          simp only [hdp, Bool.not_false, Bool.true_and, eq_self_iff_true,
            if_true]
          constructor
          · intro _
            rw [List.any_append]
            have hacq : ctx1.ops.any isAcquisitionStart = true := by
              rw [hinv.2.1, hfc]; rfl
            rw [hacq]
            rfl
          · intro _
            exact ⟨ctx1.ops, ctx1.curCall, rfl⟩
        | true =>
          simp only [Bool.not_true, Bool.false_and, Bool.false_eq_true,
            if_false]
          constructor
          · intro hex
            exact absurd hex (no_release_suffix hinv.2.2)
          · intro hacq
            rw [hinv.2.1, hfc] at hacq
            simp at hacq
  · intro fuel lk lhe rhe flags prog h
    unfold CompileSet at h
    split at h
    · simp at h
    · rename_i c1 heq1
      have hinv1 : PinnerInv c1 :=
        pinnerInv_after_compileAST lk fuel flags rhe c1 none heq1
      simp only [] at h
      split at h
      · simp at h
      · rename_i c3 heq2
        split at h
        · simp at h
        · injection h with h2
          subst h2
          have hp3 := (compile_preserves fuel).1 lk
            (if isStringLiteral rhe then compileAllocLiteralString c1 else c1)
            lhe
          rw [heq2] at hp3
          have hinv3 : PinnerInv c3 := hp3.1.1
            (by split
                · exact (preserves_compileAllocLiteralString c1).1 hinv1
                · exact hinv1)
          have hfin : PinnerInv (pushOp c3 .setValue) :=
            (preserves_pushOp c3 .setValue rfl rfl).1 hinv3
          exact ⟨hfin.2.2, no_release_suffix hfin.2.2⟩

/-- Counterexample to C5 as stated: `CompileSet` of `x = f()` under
`HAS_DEBUG_PINNER` emits the pinner acquisition but never the release,
so "release at the end iff an acquisition was emitted" fails for
`CompileSet`-produced programs. -/
theorem c5_counterexample :
    CompileSet 20 lkC (.ident "x") (.call (.ident "f") []) ⟨true, true⟩ =
      .ok progSetCall ∧
    progSetCall.any isAcquisitionStart = true ∧
    ¬∃ pre id, progSetCall = pre ++ releaseOps id :=
  ⟨rfl, rfl, no_release_suffix rfl⟩
